import Mathlib

/-!
The per-document transform and the worker pipeline of parse-arin.

A shallow embedding of `src/main.go` and `src/types.go`.

* Go strings are `String`, Go slices are `List` (the nil slice is `[]`),
  Go `int` is `Int`.
* A function that can stop with a run-time panic (an index read out of
  range) returns `none` / `Outcome.panic` there.
* Functions imported from other packages (`net.ParseIP`,
  `ipaddr.Summarize`, `ipaddr.Prefix.String`, the `countries` lookup) and
  the file system are the fields of `Env`; every theorem stated over an
  arbitrary `env` holds for each implementation of them.
-/

namespace ParseArin

/-! ## Constants (main.go 22-26) -/

def lastChangedAction : String := "last changed"
def ipNetworkClass : String := "ip network"
def ipv4NetType : String := "inetnum"
def ipv6NetType : String := "inet6num"
def defaultCountryCode : String := "ZZ"

/-! ## Data model (types.go) -/

/-- A value decoded by `encoding/json` into Go's `any`: nil, bool, number
(decoded as a float and never inspected by this program), string, `[]any`
or `map[string]any` (kept as its list of key/value pairs). -/
inductive JAny where
  | null : JAny
  | bool (b : Bool) : JAny
  | num (n : Int) : JAny
  | str (s : String) : JAny
  | arr (xs : List JAny) : JAny
  | obj (kvs : List (String × JAny)) : JAny

structure Remark where
  Title : String
  Description : List String
deriving DecidableEq

structure Event where
  Action : String
  Date : String
deriving DecidableEq

structure Entity where
  VcardArray : List JAny

structure RawDocument where
  StartAddress : String
  EndAddress : String
  Name : String
  Remarks : List Remark
  Events : List Event
  Entities : List Entity
  Status : List String
  ObjectClassName : String
  ArinOriginas0Originautnums : List Int

structure ParsedDocument where
  CIDR : String
  NetName : String
  ASN : Int
  Remarks : String
  /-- The field `Type` of the Go struct (a reserved word here). -/
  Type_ : String
  Countries : List String
  Country : String
  LastModified : String
  Source : String
deriving DecidableEq

/-! ## Go run-time and standard library -/

/-- The three ways a Go call `f(...) (T, error)` can end: it returns a value
and a nil error, it returns a non-nil error (and a nil value), or it
panics. -/
inductive Outcome (α : Type) where
  | ok (val : α) : Outcome α
  | error (msg : String) : Outcome α
  | panic : Outcome α
deriving DecidableEq

/-- A `net.IP`: a byte slice, nil being `[]`. -/
abbrev IP := List (Fin 256)

/-- The twelve bytes that precede an IPv4 address in its 16-byte form. -/
def v4InV6Lead : IP := [0, 0, 0, 0, 0, 0, 0, 0, 0, 0, 0xff, 0xff]

/-- Go `net.IP.To4`: the 4-byte form of an IPv4 address, nil otherwise. -/
def To4 (ip : IP) : IP :=
  if ip.length = 4 then ip
  else if ip.length = 16 ∧ ip.take 12 = v4InV6Lead then ip.drop 12
  else []

/-- Go `net.IP.To16`: the 16-byte form of an address, nil when the slice
has neither 4 nor 16 bytes. -/
def To16 (ip : IP) : IP :=
  if ip.length = 4 then v4InV6Lead ++ ip
  else if ip.length = 16 then ip
  else []

/-- Go `strings.Join`. -/
def Join (elems : List String) (sep : String) : String :=
  sep.intercalate elems

/-- The pieces of a character sequence between occurrences of `sep`. -/
def splitChars (sep : Char) : List Char → List (List Char)
  | [] => [[]]
  | c :: cs =>
    if c = sep then [] :: splitChars sep cs
    else
      match splitChars sep cs with
      | [] => [[c]]
      | l :: ls => (c :: l) :: ls

/-- Go `strings.Split` for a one-character separator (the program only
splits on a newline). -/
def Split (s : String) (sep : Char) : List String :=
  (splitChars sep s.data).map String.mk

/-! ## Imported packages and the file system -/

/-- An `ipaddr.Prefix` (a CIDR block): the width of its address family in
bits (32 or 128), its first address as a number, and its prefix length. -/
structure Cidr where
  bits : Nat
  addr : Nat
  ones : Nat
deriving DecidableEq

/-- A `countries.CountryCode`. -/
abbrev CountryCode := Int

/-- What `parseFile` takes from outside this repository. -/
structure Env where
  /-- Opening the file and decoding it (`os.Open`, then
  `json.NewDecoder(f).Decode(&rawDoc)`): the decoded document, or the error
  of either call. -/
  Decode : String → Except String RawDocument
  /-- Go `net.ParseIP`: nil (`[]`) when the text is not an IP address, the
  16-byte form of the address otherwise. -/
  ParseIP : String → IP
  /-- Package `ipaddr`: `Summarize(first, last)`. -/
  Summarize : IP → IP → List Cidr
  /-- Package `ipaddr`: `Prefix.String()`. -/
  CidrString : Cidr → String
  /-- Package `countries`: `ByName(name)`. -/
  ByName : String → CountryCode
  /-- Package `countries`: the constant `Unknown`. -/
  Unknown : CountryCode
  /-- Package `countries`: `CountryCode.Alpha2()`. -/
  Alpha2 : CountryCode → String

/-! ## getCountryCodes (main.go 28-83) -/

/-- Looking a key up in a decoded JSON object. -/
def mapLookup (key : String) : List (String × JAny) → Option JAny
  | [] => none
  | (k, v) :: rest => if k = key then some v else mapLookup key rest

/-- One iteration of the innermost loop (main.go 37-78): `codes` after the
element `vcardInfo`, or `none` when the iteration panics. -/
def vcardInfoStep (env : Env) (codes : List String) (vcardInfo : JAny) :
    Option (List String) :=
  match vcardInfo with
  | JAny.arr vcardInfo =>
    if vcardInfo.length = 0 then some codes
    else
      match vcardInfo.get? 0 with
      | some (JAny.str kind) =>
        if kind ≠ "adr" then some codes
        else
          match vcardInfo.get? 1 with
          | none => none
          | some (JAny.obj infoMap) =>
            match mapLookup "label" infoMap with
            | some (JAny.str addr) =>
              let addrLines := Split addr '\n'
              if addrLines.length = 0 then some codes
              else
                let countryCode := env.ByName (addrLines.getLastD "")
                if countryCode = env.Unknown then some codes
                else some (codes ++ [env.Alpha2 countryCode])
            | _ => some codes
          | some _ => some codes
      | _ => some codes
  | _ => some codes

/-- The loop over the elements of one top-level vcard element
(main.go 37-78). -/
def vcardInfoLoop (env : Env) : List String → List JAny → Option (List String)
  | codes, [] => some codes
  | codes, vcardInfo :: rest =>
    match vcardInfoStep env codes vcardInfo with
    | none => none
    | some codes1 => vcardInfoLoop env codes1 rest

/-- The loop over the top-level elements of one entity's vcard array
(main.go 31-79); an element that is not an array is skipped. -/
def vcardLoop (env : Env) : List String → List JAny → Option (List String)
  | codes, [] => some codes
  | codes, JAny.arr vcard :: rest =>
    match vcardInfoLoop env codes vcard with
    | none => none
    | some codes1 => vcardLoop env codes1 rest
  | codes, _ :: rest => vcardLoop env codes rest

/-- The loop over the entities (main.go 30-80). -/
def entityLoop (env : Env) : List String → List Entity → Option (List String)
  | codes, [] => some codes
  | codes, ent :: rest =>
    match vcardLoop env codes ent.VcardArray with
    | none => none
    | some codes1 => entityLoop env codes1 rest

/-- The function `getCountryCodes`: the codes, or `none` when it panics. -/
def getCountryCodes (env : Env) (doc : RawDocument) : Option (List String) :=
  entityLoop env [] doc.Entities

/-! ## parseFile (main.go 85-173) -/

/-- The loop over the remark blocks (main.go 114-119); `n` is
`len(rawDoc.Remarks)` and `i` the index of the next block. -/
def remarksLoop (n : Nat) : Nat → String → List Remark → String
  | _, remarks, [] => remarks
  | i, remarks, remark :: rest =>
    let remarks1 := remarks ++ Join remark.Description "\n"
    remarksLoop n (i + 1) (if i < n - 1 then remarks1 ++ "\n" else remarks1) rest

/-- The loop over the events (main.go 129-133). -/
def lastModifiedLoop : String → List Event → String
  | lastModified, [] => lastModified
  | lastModified, ev :: rest =>
    lastModifiedLoop (if ev.Action = lastChangedAction then ev.Date else lastModified) rest

/-- The inner loop of `CountryLoop` (main.go 140-144): whether it leaves
through `continue CountryLoop`. -/
def containsCode (cc : String) : List String → Bool
  | [] => false
  | c :: rest => if c = cc then true else containsCode cc rest

/-- The loop `CountryLoop` (main.go 137-146). -/
def countryLoop : List String → List String → List String
  | countries, [] => countries
  | countries, cc :: rest =>
    countryLoop (if containsCode cc countries then countries else countries ++ [cc]) rest

/-- The function `parseFile`. -/
def parseFile (env : Env) (filename : String) : Outcome (List ParsedDocument) :=
  match env.Decode filename with
  | Except.error err => Outcome.error err
  | Except.ok rawDoc =>
    if rawDoc.ObjectClassName ≠ ipNetworkClass then Outcome.ok []
    else
      let ipStart := env.ParseIP rawDoc.StartAddress
      let ipEnd := env.ParseIP rawDoc.EndAddress
      let cidrs := env.Summarize ipStart ipEnd
      let remarks := remarksLoop rawDoc.Remarks.length 0 "" rawDoc.Remarks
      let netType : Option String :=
        if To4 ipStart ≠ [] then some ipv4NetType
        else if To16 ipStart ≠ [] then some ipv6NetType
        else none
      match netType with
      | none => Outcome.error "Invalid IP version"
      | some netType =>
        let lastModified := lastModifiedLoop "" rawDoc.Events
        match getCountryCodes env rawDoc with
        | none => Outcome.panic
        | some countryCodes =>
          let countries := countryLoop [] countryCodes
          let mainCountry :=
            if countries.length > 0 then countries.headD "" else defaultCountryCode
          let asn : Int :=
            if rawDoc.ArinOriginas0Originautnums.length > 0 then
              rawDoc.ArinOriginas0Originautnums.headD 0
            else 0
          Outcome.ok (cidrs.map fun cidr =>
            { CIDR := env.CidrString cidr
              NetName := rawDoc.Name
              ASN := asn
              Remarks := remarks
              Type_ := netType
              Countries := countries
              Country := mainCountry
              LastModified := lastModified
              Source := "ARIN" })

/-- The record type `parseFile` assigns for a start address that has a
4-byte or a 16-byte form (main.go 121-125). -/
def netTypeOf (ipStart : IP) : String :=
  if To4 ipStart ≠ [] then ipv4NetType else ipv6NetType

/-- The record `parseFile` appends for the block `cidr` (main.go 148-169),
`countryCodes` being the result of `getCountryCodes`. -/
def recordFor (env : Env) (rawDoc : RawDocument) (countryCodes : List String)
    (cidr : Cidr) : ParsedDocument where
  CIDR := env.CidrString cidr
  NetName := rawDoc.Name
  ASN := if rawDoc.ArinOriginas0Originautnums.length > 0 then
      rawDoc.ArinOriginas0Originautnums.headD 0 else 0
  Remarks := remarksLoop rawDoc.Remarks.length 0 "" rawDoc.Remarks
  Type_ := netTypeOf (env.ParseIP rawDoc.StartAddress)
  Countries := countryLoop [] countryCodes
  Country := if (countryLoop [] countryCodes).length > 0 then
      (countryLoop [] countryCodes).headD "" else defaultCountryCode
  LastModified := lastModifiedLoop "" rawDoc.Events
  Source := "ARIN"

/-! ## The Range Summarizer -/

/-- The number a byte slice denotes, most significant byte first. -/
def ipToInt (ip : IP) : Nat :=
  ip.foldl (fun acc b => acc * 256 + b.val) 0

/-- The largest `k` up to the given bound for which the block of `2 ^ k`
addresses starting at `cur` is aligned (`2 ^ k` divides `cur`) and does not
exceed `e`; `0` when no larger one is. -/
def blockBits (cur e : Nat) : Nat → Nat
  | 0 => 0
  | k + 1 =>
    if cur % 2 ^ (k + 1) = 0 ∧ cur + 2 ^ (k + 1) ≤ e + 1 then k + 1
    else blockBits cur e k

/-- The greedy loop: while `cur ≤ e`, take the largest aligned block at
`cur` that does not exceed `e` and go on after it. The first argument
bounds the number of rounds. -/
def summarizeLoop (w e : Nat) : Nat → Nat → List Cidr
  | 0, _ => []
  | fuel + 1, cur =>
    if cur ≤ e then
      let k := blockBits cur e w
      { bits := w, addr := cur, ones := w - k } :: summarizeLoop w e fuel (cur + 2 ^ k)
    else []

/-- The blocks of the inclusive range from `s` to `e` of `w`-bit addresses.
Every round advances by at least one address, so `e + 1 - s` rounds are
enough. -/
def summarizeRange (w s e : Nat) : List Cidr :=
  summarizeLoop w e (e + 1 - s) s

/-- Modelled from the spec: `ipaddr.Summarize`, of the imported package
`github.com/mikioh/ipaddr`, whose source is not part of this repository.
Spec 4.1: the input is two addresses of the same family; the output is the
ordered sequence of CIDR blocks obtained by greedy power-of-two alignment
from the start, repeatedly taking the largest block that is aligned to the
current address and does not exceed the end. The call at main.go 112 has a
single result, so the failure on addresses that are not of one family is
the empty result. -/
def Summarize (first last : IP) : List Cidr :=
  if To4 first ≠ [] then
    if To4 last ≠ [] then summarizeRange 32 (ipToInt (To4 first)) (ipToInt (To4 last))
    else []
  else if To16 first ≠ [] then
    if To4 last = [] ∧ To16 last ≠ [] then
      summarizeRange 128 (ipToInt (To16 first)) (ipToInt (To16 last))
    else []
  else []

/-- The addresses of a block: `2 ^ (bits - ones)` of them from `addr` on. -/
def Cidr.size (c : Cidr) : Nat := 2 ^ (c.bits - c.ones)

/-- Whether the address `n` lies in the block. -/
def Cidr.Contains (c : Cidr) (n : Nat) : Prop :=
  c.addr ≤ n ∧ n < c.addr + c.size

/-- Whether an address is an IPv4 one (it has a 4-byte form). -/
abbrev isIPv4 (ip : IP) : Prop := To4 ip ≠ []

/-- Whether an address is an IPv6 one (it has only a 16-byte form). -/
abbrev isIPv6 (ip : IP) : Prop := To4 ip = [] ∧ To16 ip ≠ []

/-- The position of an address in its family's address space. -/
def addrValue (ip : IP) : Nat :=
  if To4 ip ≠ [] then ipToInt (To4 ip) else ipToInt (To16 ip)

/-- A well-formed block: the prefix length is at most the address width and
the first address is a multiple of the block's size. -/
def Cidr.Aligned (c : Cidr) : Prop :=
  c.ones ≤ c.bits ∧ c.addr % c.size = 0

/-- The blocks are in ascending address order, no two of them share an
address, and the addresses they hold are exactly those from `lo` to `hi`,
both included. -/
def ExactCover (blocks : List Cidr) (lo hi : Nat) : Prop :=
  blocks.Pairwise (fun x y => x.addr < y.addr ∧ ∀ n, ¬ (x.Contains n ∧ y.Contains n)) ∧
    ∀ n, (∃ c ∈ blocks, c.Contains n) ↔ (lo ≤ n ∧ n ≤ hi)

/-! ## The Contact Country Extractor as the spec words it -/

/-- Whether a value is an array whose only element is the string `adr`. -/
def isShortAdr : JAny → Bool
  | JAny.arr [JAny.str kind] => kind = "adr"
  | _ => false

/-- Spec 4.2, one inner element: an array whose first element is the string
`adr` and whose second element is a mapping with a string under `label`
gives the code the country lookup resolves the last line of that string
to, if it resolves it; any other element gives nothing. -/
def specInfoCode (env : Env) : JAny → Option String
  | JAny.arr (JAny.str kind :: JAny.obj infoMap :: _) =>
    if kind = "adr" then
      match mapLookup "label" infoMap with
      | some (JAny.str label) =>
        let code := env.ByName ((Split label '\n').getLastD "")
        if code = env.Unknown then none else some (env.Alpha2 code)
      | _ => none
    else none
  | _ => none

/-- Spec 4.2, one top-level element: the codes of its inner elements when
it is an array, nothing otherwise. -/
def specVcardCodes (env : Env) : JAny → List String
  | JAny.arr vcard => vcard.filterMap (specInfoCode env)
  | _ => []

/-- Spec 4.2, the Contact Country Extractor: the codes of all entities in
traversal order, duplicates included. -/
def specCountryCodes (env : Env) (doc : RawDocument) : List String :=
  doc.Entities.flatMap fun ent => ent.VcardArray.flatMap (specVcardCodes env)

/-- Whether a top-level vcard element holds an array whose only element is
the string `adr`. -/
def vcardHasShortAdr : JAny → Bool
  | JAny.arr vcard => vcard.any isShortAdr
  | _ => false

/-- Whether some entity of the document holds such an array. -/
def hasShortAdr (doc : RawDocument) : Bool :=
  doc.Entities.any fun ent => ent.VcardArray.any vcardHasShortAdr

/-- The invariant of `CountryLoop`: `countries` holds the codes of the part
`seen` of the input read so far, each once, in the order of their first
occurrence in `seen`. -/
def CountryInv (seen countries : List String) : Prop :=
  countries.Nodup ∧ (∀ c, c ∈ countries ↔ c ∈ seen) ∧
    countries.Pairwise fun a b => seen.indexOf a < seen.indexOf b

/-! ## A concrete environment for examples -/

/-- One decimal field of a dotted IPv4 address: one to three digits, no
leading zero, at most 255. -/
def sampleOctet (ds : List Char) : Option (Fin 256) :=
  if ds = [] ∨ 3 < ds.length ∨ (1 < ds.length ∧ ds.head? = some '0')
      ∨ ds.any (fun c => !c.isDigit) then none
  else
    let n := ds.foldl (fun acc c => acc * 10 + (c.toNat - 48)) 0
    if h : n < 256 then some ⟨n, h⟩ else none

/-- The values of `net.ParseIP` on dotted-decimal IPv4 text and on the IPv6
text `2001:db8::`; other text is taken as unparseable. -/
def sampleParseIP (s : String) : IP :=
  match (splitChars '.' s.data).mapM sampleOctet with
  | some [a, b, c, d] => v4InV6Lead ++ [a, b, c, d]
  | _ =>
    if s = "2001:db8::" then [0x20, 0x01, 0x0d, 0xb8, 0, 0, 0, 0, 0, 0, 0, 0, 0, 0, 0, 0]
    else []

/-- The text of a 32-bit block, `a.b.c.d/ones`; blocks of another width do
not occur in the examples and give the empty text. -/
def sampleCidrString (c : Cidr) : String :=
  if c.bits = 32 then
    toString (c.addr / 2 ^ 24 % 256) ++ "." ++ toString (c.addr / 2 ^ 16 % 256) ++ "."
      ++ toString (c.addr / 2 ^ 8 % 256) ++ "." ++ toString (c.addr % 256)
      ++ "/" ++ toString c.ones
  else ""

/-- An environment in which every file decodes to `doc`, addresses are read
by `sampleParseIP`, ranges are summarized by `Summarize`, and the country
lookup knows `United States` (code 840, `US`) and `Canada` (code 124,
`CA`), `Unknown` being 0. -/
def sampleEnv (doc : RawDocument) : Env where
  Decode := fun _ => Except.ok doc
  ParseIP := sampleParseIP
  Summarize := Summarize
  CidrString := sampleCidrString
  ByName := fun name =>
    if name = "United States" then 840 else if name = "Canada" then 124 else 0
  Unknown := 0
  Alpha2 := fun code => if code = 840 then "US" else if code = 124 then "CA" else ""

/-- The document of the test `TestParsing` (parse_test.go), with the content
the expected record shows; the test's input file is not part of the
sources, so the contact block is one whose address label ends in
`United States`. -/
def silverstar : RawDocument where
  StartAddress := "217.147.184.0"
  EndAddress := "217.147.191.255"
  Name := "SILVERSTAR-11"
  Remarks := [{ Title := "Registration Comments",
                Description :=
      ["Geofeed https://raw.githubusercontent.com/SSC-DevOPS/SSC-Geofeed/main/geofeed.csv"] }]
  Events := [{ Action := "last changed", Date := "2023-05-22T17:10:08-04:00" },
             { Action := "registration", Date := "2010-06-11T15:40:31-04:00" }]
  Entities := [{ VcardArray := [JAny.str "vcard",
    JAny.arr [JAny.arr [JAny.str "version", JAny.obj [], JAny.str "text", JAny.str "4.0"],
              JAny.arr [JAny.str "adr", JAny.obj [("label", JAny.str "19 St\nMiami\nUnited States")],
                        JAny.str "text", JAny.arr []]]] }]
  Status := ["active"]
  ObjectClassName := "ip network"
  ArinOriginas0Originautnums := [26223]

/-- An entity whose vcard array holds the array `["adr"]`, of length one. -/
def shortAdrEntity : Entity where
  VcardArray := [JAny.str "vcard", JAny.arr [JAny.arr [JAny.str "adr"]]]

/-- An entity with one address label, whose last line is `country`. -/
def labelEntity (country : String) : Entity where
  VcardArray := [JAny.str "vcard",
    JAny.arr [JAny.arr [JAny.str "fn", JAny.obj [], JAny.str "text", JAny.str "Registrant"],
              JAny.arr [JAny.str "adr", JAny.obj [("label", JAny.str ("1 Main St\n" ++ country))],
                        JAny.str "text", JAny.arr []]]]

/-- An IP-network document, 192.0.2.0 to 192.0.2.255, whose contact data
holds the array `["adr"]`. -/
def shortAdrNetwork : RawDocument where
  StartAddress := "192.0.2.0"
  EndAddress := "192.0.2.255"
  Name := "TEST-NET-1"
  Remarks := []
  Events := []
  Entities := [shortAdrEntity]
  Status := []
  ObjectClassName := "ip network"
  ArinOriginas0Originautnums := []

/-- An IP-network document whose contact data holds a well-formed address
entry (last line `United States`) followed by an entity with the array
`["adr"]`. -/
def labelThenShortAdr : RawDocument where
  StartAddress := "192.0.2.0"
  EndAddress := "192.0.2.255"
  Name := "TEST-NET-1"
  Remarks := []
  Events := []
  Entities := [labelEntity "United States", shortAdrEntity]
  Status := []
  ObjectClassName := "ip network"
  ArinOriginas0Originautnums := []

/-- A document of another object class, with unparseable addresses and the
array `["adr"]` in its contact data. -/
def otherClassDoc : RawDocument where
  StartAddress := "not-an-address"
  EndAddress := ""
  Name := "SOME-ORG"
  Remarks := []
  Events := []
  Entities := [shortAdrEntity]
  Status := []
  ObjectClassName := "entity"
  ArinOriginas0Originautnums := []

/-- An IP-network document whose start address parses and whose end address
does not. -/
def badEndNetwork : RawDocument where
  StartAddress := "192.0.2.0"
  EndAddress := "not-an-address"
  Name := "TEST-NET-1"
  Remarks := []
  Events := []
  Entities := []
  Status := []
  ObjectClassName := "ip network"
  ArinOriginas0Originautnums := []

/-- An IP-network document with an IPv4 start and an IPv6 end address. -/
def mixedFamilyNetwork : RawDocument where
  StartAddress := "192.0.2.0"
  EndAddress := "2001:db8::"
  Name := "TEST-NET-1"
  Remarks := []
  Events := []
  Entities := []
  Status := []
  ObjectClassName := "ip network"
  ArinOriginas0Originautnums := []

/-- An IP-network document, 10.0.0.1 to 10.0.0.6 (four blocks), with two
`last changed` events around another event and contacts in the United
States, Canada and the United States again. -/
def multiDoc : RawDocument where
  StartAddress := "10.0.0.1"
  EndAddress := "10.0.0.6"
  Name := "MULTI"
  Remarks := []
  Events := [{ Action := "last changed", Date := "2020-01-01T00:00:00-05:00" },
             { Action := "registration", Date := "2021-01-01T00:00:00-05:00" },
             { Action := "last changed", Date := "2023-01-01T00:00:00-05:00" }]
  Entities := [labelEntity "United States", labelEntity "Canada", labelEntity "United States"]
  Status := []
  ObjectClassName := "ip network"
  ArinOriginas0Originautnums := []

/-- The record `parseFile` gives for `multiDoc` and the block of text
`cidr`. -/
def multiRecord (cidr : String) : ParsedDocument where
  CIDR := cidr
  NetName := "MULTI"
  ASN := 0
  Remarks := ""
  Type_ := "inetnum"
  Countries := ["US", "CA"]
  Country := "US"
  LastModified := "2023-01-01T00:00:00-05:00"
  Source := "ARIN"

/-- The records `parseFile` gives for `multiDoc`. -/
def multiRecords : List ParsedDocument :=
  ["10.0.0.1/32", "10.0.0.2/31", "10.0.0.4/31", "10.0.0.6/32"].map multiRecord

/-- The record the test `TestParsing` expects (parse_test.go 9). -/
def silverstarRecord : ParsedDocument where
  CIDR := "217.147.184.0/21"
  NetName := "SILVERSTAR-11"
  ASN := 26223
  Remarks := "Geofeed https://raw.githubusercontent.com/SSC-DevOPS/SSC-Geofeed/main/geofeed.csv"
  Type_ := "inetnum"
  Countries := ["US"]
  Country := "US"
  LastModified := "2023-05-22T17:10:08-04:00"
  Source := "ARIN"

/-- An IP-network document whose start and end address are the same
address and whose contact data holds the array `["adr"]`. -/
def singleShortAdr : RawDocument where
  StartAddress := "192.0.2.1"
  EndAddress := "192.0.2.1"
  Name := "TEST-HOST"
  Remarks := []
  Events := []
  Entities := [shortAdrEntity]
  Status := []
  ObjectClassName := "ip network"
  ArinOriginas0Originautnums := []

/-- An IP-network document whose start address does not parse. -/
def badStartNetwork : RawDocument where
  StartAddress := "not-an-address"
  EndAddress := "192.0.2.255"
  Name := "TEST-NET-1"
  Remarks := []
  Events := []
  Entities := []
  Status := []
  ObjectClassName := "ip network"
  ArinOriginas0Originautnums := []

/-- An IP-network document of one address with two remark blocks (of two
lines and of one line) and two origin AS numbers. -/
def remarksDoc : RawDocument where
  StartAddress := "192.0.2.1"
  EndAddress := "192.0.2.1"
  Name := "TEST-HOST"
  Remarks := [{ Title := "first", Description := ["line one", "line two"] },
              { Title := "second", Description := ["line three"] }]
  Events := []
  Entities := []
  Status := []
  ObjectClassName := "ip network"
  ArinOriginas0Originautnums := [64500, 64501]

/-- The record `parseFile` gives for `remarksDoc`. -/
def remarksRecord : ParsedDocument where
  CIDR := "192.0.2.1/32"
  NetName := "TEST-HOST"
  ASN := 64500
  Remarks := "line one\nline two\nline three"
  Type_ := "inetnum"
  Countries := []
  Country := "ZZ"
  LastModified := ""
  Source := "ARIN"

/-! ## The pipeline (main.go 231-295)

The goroutines of `main` as a transition system. The channels `files`,
`abort` and `finished` are unbuffered: a send and its receive happen as one
step of the two goroutines involved. -/

/-- Where a worker goroutine (main.go 244-267) stands: waiting for a path
at `range files` (245); holding a path, before `parseFile` has returned
(247); at the send `abort <- struct` (251) after an error, `rawDocs` being
nil; holding its batch of serialised records (254-259) before the locked
append (261-265); out of its loop, `files` being closed. -/
inductive Worker where
  | receiving : Worker
  | parsing (filename : String) : Worker
  | aborting : Worker
  | appending (batch : List String) : Worker
  | exited : Worker
deriving DecidableEq

/-- Where the walker goroutine (main.go 272-287) stands: inside `WalkDir`
with the regular files it still has to visit, at the `select` (278-284) for
the first of them; at the send on `finished` (286); returned. -/
inductive Walker where
  | walking (paths : List String) : Walker
  | finishing : Walker
  | done : Walker
deriving DecidableEq

/-- Where `main` stands: at the receive from `finished` (289), or in the
output loop (290-295) over the collection as it was when the loop began. -/
inductive Main where
  | waiting : Main
  | printing (output : List String) : Main
deriving DecidableEq

/-- The state of a run: the goroutines, whether `files` is closed, the
shared collection `documents`, and whether a goroutine has panicked (which
ends the program). -/
structure Pipeline where
  workers : List Worker
  walker : Walker
  main : Main
  filesClosed : Bool
  documents : List String
  crashed : Bool
deriving DecidableEq

/-- The state after the goroutines are started (main.go 232-287):
`poolSize` workers, and a walk that will visit the regular files `paths`. -/
def Pipeline.start (poolSize : Nat) (paths : List String) : Pipeline where
  workers := List.replicate poolSize Worker.receiving
  walker := Walker.walking paths
  main := Main.waiting
  filesClosed := false
  documents := []
  crashed := false

/-- The steps of a run: the walker's `select` hands its path to worker `i`;
worker `i` gets the result of `parseFile`; the walker's `select` takes the
abort signal of worker `i`; worker `i` appends its batch under the lock;
worker `i` finds `files` closed and leaves; `WalkDir` returns after the last
file; `main` takes the walker's `finished` signal and begins the output. -/
inductive Action where
  | deliver (i : Nat) : Action
  | parse (i : Nat) : Action
  | signal (i : Nat) : Action
  | append (i : Nat) : Action
  | leave (i : Nat) : Action
  | walkEnd : Action
  | finish : Action
deriving DecidableEq

/-- The state after one step, `none` when the step cannot be taken in `s`.
`marshal` is `json.Marshal` followed by the conversion to a string
(main.go 256-257). -/
def step (env : Env) (marshal : ParsedDocument → String) (s : Pipeline) (a : Action) :
    Option Pipeline :=
  if s.crashed then none
  else
    match a with
    | Action.deliver i =>
      match s.walker, s.workers[i]? with
      | Walker.walking (path :: rest), some Worker.receiving =>
        some { s with workers := s.workers.set i (Worker.parsing path),
                      walker := Walker.walking rest }
      | _, _ => none
    | Action.parse i =>
      match s.workers[i]? with
      | some (Worker.parsing filename) =>
        match parseFile env filename with
        | Outcome.ok rawDocs =>
          some { s with workers := s.workers.set i (Worker.appending (rawDocs.map marshal)) }
        | Outcome.error _ => some { s with workers := s.workers.set i Worker.aborting }
        | Outcome.panic => some { s with crashed := true }
      | _ => none
    | Action.signal i =>
      match s.walker, s.workers[i]? with
      | Walker.walking (_ :: _), some Worker.aborting =>
        some { s with workers := s.workers.set i (Worker.appending []),
                      walker := Walker.finishing, filesClosed := true }
      | _, _ => none
    | Action.append i =>
      match s.workers[i]? with
      | some (Worker.appending batch) =>
        some { s with workers := s.workers.set i Worker.receiving,
                      documents := s.documents ++ batch }
      | _ => none
    | Action.leave i =>
      match s.workers[i]? with
      | some Worker.receiving =>
        if s.filesClosed then some { s with workers := s.workers.set i Worker.exited }
        else none
      | _ => none
    | Action.walkEnd =>
      match s.walker with
      | Walker.walking [] => some { s with walker := Walker.finishing }
      | _ => none
    | Action.finish =>
      match s.walker, s.main with
      | Walker.finishing, Main.waiting =>
        some { s with walker := Walker.done, main := Main.printing s.documents }
      | _, _ => none

/-- The state after a sequence of steps, `none` when one of them cannot be
taken. -/
def run (env : Env) (marshal : ParsedDocument → String) : Pipeline → List Action → Option Pipeline
  | s, [] => some s
  | s, a :: rest =>
    match step env marshal s a with
    | none => none
    | some s1 => run env marshal s1 rest

/-- A stand-in for `json.Marshal` in the examples: the name and the CIDR of
the record. -/
def sampleMarshal (d : ParsedDocument) : String :=
  d.NetName ++ " " ++ d.CIDR

/-- The frame of one worker's pass over a file, for worker `i` holding the
path `filename` in state `s`. When `parseFile` succeeds, its two steps lead
to the collection followed by the serialised records, in `parseFile`'s
order. When `parseFile` fails, the worker goes to the abort signal with the
collection as it was, and once the walker has taken the signal its append
adds nothing. No run removes or reorders what the collection holds. -/
def WorkerFrame (env : Env) (marshal : ParsedDocument → String) (s : Pipeline) (i : Nat)
    (filename : String) : Prop :=
  (∀ rawDocs, parseFile env filename = Outcome.ok rawDocs →
      ∃ s1, run env marshal s [Action.parse i, Action.append i] = some s1 ∧
        s1.documents = s.documents ++ rawDocs.map marshal) ∧
    (∀ msg, parseFile env filename = Outcome.error msg →
      (∃ s1, step env marshal s (Action.parse i) = some s1 ∧
        s1.workers[i]? = some Worker.aborting ∧ s1.documents = s.documents) ∧
      (∀ path rest, s.walker = Walker.walking (path :: rest) →
        ∃ s1, run env marshal s [Action.parse i, Action.signal i, Action.append i] = some s1 ∧
          s1.documents = s.documents)) ∧
    (∀ actions s1, run env marshal s actions = some s1 → s.documents <+: s1.documents)

/-- One worker holding the path `a.json`, the walk having one more file to
visit, and one record already in the collection. -/
def busyState : Pipeline where
  workers := [Worker.parsing "a.json"]
  walker := Walker.walking ["b.json"]
  main := Main.waiting
  filesClosed := false
  documents := ["EARLIER 198.51.100.0/24"]
  crashed := false

/-- One worker still holding its path while `main` is in the output loop
over the empty collection. -/
def earlyOutput : Pipeline where
  workers := [Worker.parsing "a.json"]
  walker := Walker.done
  main := Main.printing []
  filesClosed := false
  documents := []
  crashed := false

/-- The state `earlyOutput` after the worker has appended its record. -/
def lateAppend : Pipeline where
  workers := [Worker.receiving]
  walker := Walker.done
  main := Main.printing []
  filesClosed := false
  documents := ["SILVERSTAR-11 217.147.184.0/21"]
  crashed := false

/-- One worker at the abort signal after the walk has ended. -/
def stuckLast : Pipeline where
  workers := [Worker.aborting]
  walker := Walker.finishing
  main := Main.waiting
  filesClosed := false
  documents := []
  crashed := false

/-- Two workers that failed at the same time, the walker having taken the
signal of the first. -/
def stuckSecond : Pipeline where
  workers := [Worker.appending [], Worker.aborting]
  walker := Walker.finishing
  main := Main.waiting
  filesClosed := true
  documents := []
  crashed := false

/-- One worker waiting for a path after a walk that ended without error. -/
def idleForever : Pipeline where
  workers := [Worker.receiving]
  walker := Walker.done
  main := Main.printing []
  filesClosed := false
  documents := []
  crashed := false

/-! # Theorems -/

/-! ## parseFile, case by case -/

theorem parseFile_decode_error (env : Env) (filename err : String)
    (hdec : env.Decode filename = Except.error err) :
    parseFile env filename = Outcome.error err := by
  simp [parseFile, hdec]

theorem parseFile_other_class (env : Env) (filename : String) (rawDoc : RawDocument)
    (hdec : env.Decode filename = Except.ok rawDoc)
    (hclass : rawDoc.ObjectClassName ≠ ipNetworkClass) :
    parseFile env filename = Outcome.ok [] := by
  simp [parseFile, hdec, hclass]

theorem parseFile_invalid_start (env : Env) (filename : String) (rawDoc : RawDocument)
    (hdec : env.Decode filename = Except.ok rawDoc)
    (hclass : rawDoc.ObjectClassName = ipNetworkClass)
    (h4 : To4 (env.ParseIP rawDoc.StartAddress) = [])
    (h16 : To16 (env.ParseIP rawDoc.StartAddress) = []) :
    parseFile env filename = Outcome.error "Invalid IP version" := by
  simp [parseFile, hdec, hclass, h4, h16]

theorem parseFile_network (env : Env) (filename : String) (rawDoc : RawDocument)
    (hdec : env.Decode filename = Except.ok rawDoc)
    (hclass : rawDoc.ObjectClassName = ipNetworkClass)
    (hstart : To4 (env.ParseIP rawDoc.StartAddress) ≠ []
      ∨ To16 (env.ParseIP rawDoc.StartAddress) ≠ []) :
    parseFile env filename =
      match getCountryCodes env rawDoc with
      | none => Outcome.panic
      | some countryCodes =>
        Outcome.ok ((env.Summarize (env.ParseIP rawDoc.StartAddress)
          (env.ParseIP rawDoc.EndAddress)).map (recordFor env rawDoc countryCodes)) := by
  by_cases h4 : To4 (env.ParseIP rawDoc.StartAddress) = []
  · have h16 : To16 (env.ParseIP rawDoc.StartAddress) ≠ [] := by
      rcases hstart with h | h
      · exact absurd h4 h
      · exact h
    cases hc : getCountryCodes env rawDoc <;>
      simp [parseFile, hdec, hclass, h4, h16, hc, recordFor, netTypeOf]
  · cases hc : getCountryCodes env rawDoc <;>
      simp [parseFile, hdec, hclass, h4, hc, recordFor, netTypeOf]

/-! ## The loops of parseFile -/

theorem lastModifiedLoop_eq (events : List Event) (lastModified : String) :
    lastModifiedLoop lastModified events =
      match (events.filter fun ev => ev.Action = lastChangedAction).getLast? with
      | some ev => ev.Date
      | none => lastModified := by
  induction events generalizing lastModified with
  | nil => simp [lastModifiedLoop]
  | cons ev rest ih =>
    rw [lastModifiedLoop, ih]
    by_cases h : ev.Action = lastChangedAction
    · simp only [h, if_true, List.filter_cons, decide_True, List.getLast?_cons]
      cases (List.filter (fun ev => decide (ev.Action = lastChangedAction)) rest).getLast? <;> rfl
    · simp [h, List.filter_cons]

theorem containsCode_iff (cc : String) (countries : List String) :
    containsCode cc countries = true ↔ cc ∈ countries := by
  induction countries with
  | nil => simp [containsCode]
  | cons c rest ih =>
    by_cases h : c = cc
    · simp [containsCode, h]
    · have h2 : ¬ cc = c := fun e => h e.symm
      simp [containsCode, h, h2, ih]

theorem countryInv_step (seen countries : List String) (cc : String)
    (h : CountryInv seen countries) :
    CountryInv (seen ++ [cc])
      (if containsCode cc countries then countries else countries ++ [cc]) := by
  obtain ⟨hnd, hmem, hord⟩ := h
  by_cases hc : cc ∈ countries
  · have hcc : containsCode cc countries = true := (containsCode_iff cc countries).2 hc
    rw [if_pos hcc]
    refine ⟨hnd, ?_, ?_⟩
    · intro c
      constructor
      · intro h1
        exact List.mem_append_left _ ((hmem c).1 h1)
      · intro h1
        rcases List.mem_append.1 h1 with h2 | h2
        · exact (hmem c).2 h2
        · rw [List.mem_singleton.1 h2]; exact hc
    · refine hord.imp_of_mem ?_
      intro a b ha hb hab
      rw [List.indexOf_append_of_mem ((hmem a).1 ha), List.indexOf_append_of_mem ((hmem b).1 hb)]
      exact hab
  · have hcc : ¬ containsCode cc countries = true := fun e => hc ((containsCode_iff cc countries).1 e)
    rw [if_neg hcc]
    have hseen : cc ∉ seen := fun e => hc ((hmem cc).2 e)
    refine ⟨?_, ?_, ?_⟩
    · rw [List.nodup_append]
      refine ⟨hnd, List.nodup_singleton cc, ?_⟩
      intro a ha hb
      rw [List.mem_singleton.1 hb] at ha
      exact hc ha
    · intro c
      simp only [List.mem_append, List.mem_singleton, hmem c]
    · rw [List.pairwise_append]
      refine ⟨?_, List.pairwise_singleton _ _, ?_⟩
      · refine hord.imp_of_mem ?_
        intro a b ha hb hab
        rw [List.indexOf_append_of_mem ((hmem a).1 ha), List.indexOf_append_of_mem ((hmem b).1 hb)]
        exact hab
      · intro a ha b hb
        rw [List.mem_singleton.1 hb, List.indexOf_append_of_mem ((hmem a).1 ha),
          List.indexOf_append_of_not_mem hseen]
        have := List.indexOf_lt_length.2 ((hmem a).1 ha)
        omega

theorem countryLoop_inv (rest seen countries : List String)
    (h : CountryInv seen countries) :
    CountryInv (seen ++ rest) (countryLoop countries rest) := by
  induction rest generalizing seen countries with
  | nil => simpa [countryLoop] using h
  | cons cc rest ih =>
    rw [countryLoop]
    have := ih (seen ++ [cc]) _ (countryInv_step seen countries cc h)
    simpa using this

theorem countryLoop_dedup (countryCodes : List String) :
    CountryInv countryCodes (countryLoop [] countryCodes) := by
  have := countryLoop_inv countryCodes [] [] ⟨List.nodup_nil, by simp, List.Pairwise.nil⟩
  simpa using this

/-! ## The greedy summarizer -/

theorem blockBits_le (cur e w : Nat) : blockBits cur e w ≤ w := by
  induction w with
  | zero => simp [blockBits]
  | succ k ih =>
    rw [blockBits]
    split
    · exact le_rfl
    · exact Nat.le_succ_of_le ih

theorem blockBits_aligned (cur e w : Nat) : cur % 2 ^ blockBits cur e w = 0 := by
  induction w with
  | zero => simp [blockBits, Nat.mod_one]
  | succ k ih =>
    rw [blockBits]
    split
    · rename_i h; exact h.1
    · exact ih

theorem blockBits_fits (cur e w : Nat) (h : cur ≤ e) :
    cur + 2 ^ blockBits cur e w ≤ e + 1 := by
  induction w with
  | zero => simp [blockBits]; omega
  | succ k ih =>
    rw [blockBits]
    split
    · rename_i h1; exact h1.2
    · exact ih

theorem head_size (w k cur : Nat) (h : k ≤ w) :
    Cidr.size { bits := w, addr := cur, ones := w - k } = 2 ^ k := by
  simp only [Cidr.size]
  congr 1
  omega

theorem summarizeLoop_mem (w e : Nat) (fuel cur : Nat) (c : Cidr)
    (hc : c ∈ summarizeLoop w e fuel cur) :
    cur ≤ c.addr ∧ c.addr + c.size ≤ e + 1 ∧ c.bits = w ∧ c.ones ≤ c.bits ∧
      c.addr % c.size = 0 := by
  induction fuel generalizing cur with
  | zero => simp [summarizeLoop] at hc
  | succ fuel ih =>
    rw [summarizeLoop] at hc
    split at hc
    · rename_i hle
      have hk := blockBits_le cur e w
      rcases List.mem_cons.1 hc with h | h
      · subst h
        rw [head_size w _ cur hk]
        exact ⟨le_rfl, blockBits_fits cur e w hle, rfl, Nat.sub_le _ _,
          blockBits_aligned cur e w⟩
      · obtain ⟨h1, h2⟩ := ih _ h
        have : 0 < 2 ^ blockBits cur e w := Nat.pow_pos (by decide)
        exact ⟨by omega, h2⟩
    · simp at hc

theorem summarizeLoop_pairwise (w e : Nat) (fuel cur : Nat) :
    (summarizeLoop w e fuel cur).Pairwise fun x y => x.addr + x.size ≤ y.addr := by
  induction fuel generalizing cur with
  | zero => simp [summarizeLoop]
  | succ fuel ih =>
    rw [summarizeLoop]
    split
    · refine List.Pairwise.cons ?_ (ih _)
      intro y hy
      rw [head_size w _ cur (blockBits_le cur e w)]
      exact (summarizeLoop_mem w e fuel _ y hy).1
    · exact List.Pairwise.nil

theorem summarizeLoop_cover (w e : Nat) (fuel cur : Nat) (hfuel : e + 1 - cur ≤ fuel)
    (n : Nat) (h1 : cur ≤ n) (h2 : n ≤ e) :
    ∃ c ∈ summarizeLoop w e fuel cur, c.Contains n := by
  induction fuel generalizing cur with
  | zero => omega
  | succ fuel ih =>
    rw [summarizeLoop, if_pos (le_trans h1 h2)]
    have hpos : 0 < 2 ^ blockBits cur e w := Nat.pow_pos (by decide)
    by_cases hn : n < cur + 2 ^ blockBits cur e w
    · refine ⟨_, List.mem_cons_self _ _, ?_⟩
      simp only [Cidr.Contains]
      rw [head_size w _ cur (blockBits_le cur e w)]
      exact ⟨h1, hn⟩
    · obtain ⟨c, hc, hcn⟩ := ih (cur + 2 ^ blockBits cur e w) (by omega) (by omega)
      exact ⟨c, List.mem_cons_of_mem _ hc, hcn⟩

theorem summarizeRange_spec (w s e : Nat) :
    (summarizeRange w s e).Pairwise
        (fun x y => x.addr < y.addr ∧ ∀ n, ¬ (x.Contains n ∧ y.Contains n)) ∧
      (∀ n, (∃ c ∈ summarizeRange w s e, c.Contains n) ↔ (s ≤ n ∧ n ≤ e)) ∧
      (∀ c ∈ summarizeRange w s e, c.bits = w ∧ c.ones ≤ c.bits ∧ c.addr % c.size = 0) := by
  refine ⟨?_, ?_, ?_⟩
  · refine (summarizeLoop_pairwise w e _ s).imp ?_
    intro x y hxy
    have hpos : 0 < x.size := Nat.pow_pos (by decide)
    refine ⟨by omega, ?_⟩
    rintro n ⟨⟨_, hx⟩, ⟨hy, _⟩⟩
    omega
  · intro n
    constructor
    · rintro ⟨c, hc, hlo, hhi⟩
      obtain ⟨h1, h2, _⟩ := summarizeLoop_mem w e _ s c hc
      omega
    · rintro ⟨h1, h2⟩
      exact summarizeLoop_cover w e _ s le_rfl n h1 h2
  · intro c hc
    obtain ⟨_, _, h3, h4, h5⟩ := summarizeLoop_mem w e _ s c hc
    exact ⟨h3, h4, h5⟩

/-! ## getCountryCodes against the spec's extractor -/

theorem splitChars_ne_nil (sep : Char) (cs : List Char) : splitChars sep cs ≠ [] := by
  induction cs with
  | nil => simp [splitChars]
  | cons c cs ih =>
    rw [splitChars]
    split
    · simp
    · split <;> simp

theorem Split_ne_nil (s : String) (sep : Char) : Split s sep ≠ [] := by
  have := splitChars_ne_nil sep s.data
  simp [Split, this]

theorem vcardInfoStep_eq (env : Env) (codes : List String) (v : JAny) :
    vcardInfoStep env codes v =
      if isShortAdr v then none else some (codes ++ (specInfoCode env v).toList) := by
  cases v with
  | null => simp [vcardInfoStep, isShortAdr, specInfoCode]
  | bool b => simp [vcardInfoStep, isShortAdr, specInfoCode]
  | num n => simp [vcardInfoStep, isShortAdr, specInfoCode]
  | str s => simp [vcardInfoStep, isShortAdr, specInfoCode]
  | obj kvs => simp [vcardInfoStep, isShortAdr, specInfoCode]
  | arr xs =>
    cases xs with
    | nil => simp [vcardInfoStep, isShortAdr, specInfoCode]
    | cons x rest =>
      cases x with
      | null => simp [vcardInfoStep, isShortAdr, specInfoCode]
      | bool b => simp [vcardInfoStep, isShortAdr, specInfoCode]
      | num n => simp [vcardInfoStep, isShortAdr, specInfoCode]
      | arr ys => simp [vcardInfoStep, isShortAdr, specInfoCode]
      | obj kvs => simp [vcardInfoStep, isShortAdr, specInfoCode]
      | str kind =>
        by_cases hk : kind = "adr"
        · cases rest with
          | nil => simp [vcardInfoStep, isShortAdr, specInfoCode, hk]
          | cons y more =>
            cases y with
            | null => simp [vcardInfoStep, isShortAdr, specInfoCode, hk]
            | bool b => simp [vcardInfoStep, isShortAdr, specInfoCode, hk]
            | num n => simp [vcardInfoStep, isShortAdr, specInfoCode, hk]
            | str s => simp [vcardInfoStep, isShortAdr, specInfoCode, hk]
            | arr ys => simp [vcardInfoStep, isShortAdr, specInfoCode, hk]
            | obj infoMap =>
              cases hl : mapLookup "label" infoMap with
              | none => simp [vcardInfoStep, isShortAdr, specInfoCode, hk, hl]
              | some l =>
                cases l with
                | str addr =>
                  simp only [vcardInfoStep, isShortAdr, specInfoCode, hk, hl, List.length_cons,
                    List.get?_cons_zero, List.get?_cons_succ, ne_eq, not_true_eq_false,
                    if_false, List.length_eq_zero, Split_ne_nil, decide_True,
                    Bool.false_eq_true, if_true, Nat.succ_ne_zero]
                  split <;> simp
                | null => simp [vcardInfoStep, isShortAdr, specInfoCode, hk, hl]
                | bool b => simp [vcardInfoStep, isShortAdr, specInfoCode, hk, hl]
                | num n => simp [vcardInfoStep, isShortAdr, specInfoCode, hk, hl]
                | arr ys => simp [vcardInfoStep, isShortAdr, specInfoCode, hk, hl]
                | obj kvs => simp [vcardInfoStep, isShortAdr, specInfoCode, hk, hl]
        · cases rest with
          | nil => simp [vcardInfoStep, isShortAdr, specInfoCode, hk]
          | cons y more =>
            cases y <;> simp [vcardInfoStep, isShortAdr, specInfoCode, hk]

theorem vcardInfoLoop_eq (env : Env) (vcard : List JAny) (codes : List String) :
    vcardInfoLoop env codes vcard =
      if vcard.any isShortAdr then none
      else some (codes ++ vcard.filterMap (specInfoCode env)) := by
  induction vcard generalizing codes with
  | nil => simp [vcardInfoLoop]
  | cons v rest ih =>
    rw [vcardInfoLoop, vcardInfoStep_eq]
    by_cases hv : isShortAdr v = true
    · simp [hv]
    · have hv1 : isShortAdr v = false := by simpa using hv
      simp only [hv1, Bool.false_eq_true, if_false, ih, List.any_cons, Bool.false_or]
      cases hs : specInfoCode env v <;> simp [List.filterMap_cons, hs]

theorem vcardLoop_eq (env : Env) (vcards : List JAny) (codes : List String) :
    vcardLoop env codes vcards =
      if vcards.any vcardHasShortAdr then none
      else some (codes ++ vcards.flatMap (specVcardCodes env)) := by
  induction vcards generalizing codes with
  | nil => simp [vcardLoop]
  | cons v rest ih =>
    cases v with
    | arr vcard =>
      rw [vcardLoop, vcardInfoLoop_eq]
      by_cases hv : vcard.any isShortAdr = true
      · simp [hv, vcardHasShortAdr]
      · have hv1 : vcard.any isShortAdr = false := by simpa using hv
        simp only [hv1, Bool.false_eq_true, if_false, ih, List.any_cons, vcardHasShortAdr,
          Bool.false_or, List.flatMap_cons, specVcardCodes, List.append_assoc]
    | null => rw [vcardLoop, ih] <;> simp [vcardHasShortAdr, specVcardCodes]
    | bool b => rw [vcardLoop, ih] <;> simp [vcardHasShortAdr, specVcardCodes]
    | num n => rw [vcardLoop, ih] <;> simp [vcardHasShortAdr, specVcardCodes]
    | str s => rw [vcardLoop, ih] <;> simp [vcardHasShortAdr, specVcardCodes]
    | obj kvs => rw [vcardLoop, ih] <;> simp [vcardHasShortAdr, specVcardCodes]

theorem entityLoop_eq (env : Env) (ents : List Entity) (codes : List String) :
    entityLoop env codes ents =
      if (ents.any fun ent => ent.VcardArray.any vcardHasShortAdr) then none
      else some (codes ++ ents.flatMap fun ent => ent.VcardArray.flatMap (specVcardCodes env)) := by
  induction ents generalizing codes with
  | nil => simp [entityLoop]
  | cons ent rest ih =>
    rw [entityLoop, vcardLoop_eq]
    by_cases hv : ent.VcardArray.any vcardHasShortAdr = true
    · simp [hv]
    · have hv1 : ent.VcardArray.any vcardHasShortAdr = false := by simpa using hv
      simp only [hv1, Bool.false_eq_true, if_false, ih, List.any_cons, Bool.false_or,
        List.flatMap_cons, List.append_assoc]

theorem getCountryCodes_eq_spec (env : Env) (doc : RawDocument) :
    getCountryCodes env doc =
      if hasShortAdr doc then none else some (specCountryCodes env doc) := by
  simp [getCountryCodes, entityLoop_eq, hasShortAdr, specCountryCodes]

/-! ## Consequences used by several claims -/

/-- Every record of a successful `parseFile` comes from an IP-network
document whose start address has a 4-byte or 16-byte form, for which
`getCountryCodes` returned, and is the record of one summarizer block. -/
theorem parseFile_ok_mem (env : Env) (filename : String) (rawDoc : RawDocument)
    (recs : List ParsedDocument) (r : ParsedDocument)
    (hdec : env.Decode filename = Except.ok rawDoc)
    (hok : parseFile env filename = Outcome.ok recs) (hr : r ∈ recs) :
    rawDoc.ObjectClassName = ipNetworkClass ∧
      (To4 (env.ParseIP rawDoc.StartAddress) ≠ [] ∨
        To16 (env.ParseIP rawDoc.StartAddress) ≠ []) ∧
      ∃ countryCodes, getCountryCodes env rawDoc = some countryCodes ∧
        ∃ cidr ∈ env.Summarize (env.ParseIP rawDoc.StartAddress)
            (env.ParseIP rawDoc.EndAddress),
          r = recordFor env rawDoc countryCodes cidr := by
  by_cases hclass : rawDoc.ObjectClassName = ipNetworkClass
  · by_cases hform : To4 (env.ParseIP rawDoc.StartAddress) ≠ [] ∨
        To16 (env.ParseIP rawDoc.StartAddress) ≠ []
    · refine ⟨hclass, hform, ?_⟩
      rw [parseFile_network env filename rawDoc hdec hclass hform] at hok
      cases hc : getCountryCodes env rawDoc with
      | none => rw [hc] at hok; cases hok
      | some countryCodes =>
        rw [hc] at hok
        injection hok with hrecs
        subst hrecs
        obtain ⟨cidr, hcidr, hrec⟩ := List.mem_map.1 hr
        exact ⟨countryCodes, rfl, cidr, hcidr, hrec.symm⟩
    · have h4 : To4 (env.ParseIP rawDoc.StartAddress) = [] := by
        by_contra h; exact hform (Or.inl h)
      have h16 : To16 (env.ParseIP rawDoc.StartAddress) = [] := by
        by_contra h; exact hform (Or.inr h)
      rw [parseFile_invalid_start env filename rawDoc hdec hclass h4 h16] at hok
      cases hok
  · rw [parseFile_other_class env filename rawDoc hdec hclass] at hok
    injection hok with hrecs
    subst hrecs
    cases hr

/-- When the start address of an IP-network document has a 4-byte or
16-byte form, `parseFile` returns no error, whatever the end address is. -/
theorem parseFile_no_error_of_start (env : Env) (filename : String) (rawDoc : RawDocument)
    (hdec : env.Decode filename = Except.ok rawDoc)
    (hclass : rawDoc.ObjectClassName = ipNetworkClass)
    (hstart : To4 (env.ParseIP rawDoc.StartAddress) ≠ []
      ∨ To16 (env.ParseIP rawDoc.StartAddress) ≠ [])
    (msg : String) : parseFile env filename ≠ Outcome.error msg := by
  rw [parseFile_network env filename rawDoc hdec hclass hstart]
  cases getCountryCodes env rawDoc <;> simp

/-- An IP-network document whose start address does not parse is rejected
with an error, before the contact data is read. -/
theorem parseFile_unparseable_start (env : Env) (filename : String) (rawDoc : RawDocument)
    (hdec : env.Decode filename = Except.ok rawDoc)
    (hclass : rawDoc.ObjectClassName = ipNetworkClass)
    (hstart : env.ParseIP rawDoc.StartAddress = []) :
    parseFile env filename = Outcome.error "Invalid IP version" := by
  apply parseFile_invalid_start env filename rawDoc hdec hclass
  · rw [hstart]; rfl
  · rw [hstart]; rfl

theorem Summarize_of_ipv4 (first last : IP) (h1 : isIPv4 first) (h2 : isIPv4 last) :
    Summarize first last = summarizeRange 32 (addrValue first) (addrValue last) := by
  simp only [isIPv4] at h1 h2
  simp [Summarize, addrValue, h1, h2]

theorem Summarize_of_ipv6 (first last : IP) (h1 : isIPv6 first) (h2 : isIPv6 last) :
    Summarize first last = summarizeRange 128 (addrValue first) (addrValue last) := by
  obtain ⟨h1a, h1b⟩ := h1
  obtain ⟨h2a, h2b⟩ := h2
  simp [Summarize, addrValue, h1a, h1b, h2a, h2b]

/-- The modelled summarizer gives no block for addresses of two families. -/
theorem Summarize_mixed (first last : IP)
    (h : (isIPv4 first ∧ isIPv6 last) ∨ (isIPv6 first ∧ isIPv4 last)) :
    Summarize first last = [] := by
  rcases h with ⟨h1, h2a, _⟩ | ⟨⟨h1a, h1b⟩, h2⟩
  · simp only [isIPv4] at h1
    simp [Summarize, h1, h2a]
  · simp only [isIPv4] at h2
    simp [Summarize, h1a, h1b, h2]

/-- The test `TestParsing`: the SILVERSTAR-11 document gives the one record
the test expects. -/
theorem parseFile_silverstar :
    parseFile (sampleEnv silverstar) "./test_silverstar.json" =
      Outcome.ok [silverstarRecord] := by
  decide

/-- Without a one-element `adr` array in the contact data, `parseFile` on an
IP-network document whose start address has a 4-byte or 16-byte form returns
one record per summarizer block, in the summarizer's order, the records
differing in `CIDR` only. -/
theorem parseFile_records (env : Env) (filename : String) (rawDoc : RawDocument)
    (hdec : env.Decode filename = Except.ok rawDoc)
    (hclass : rawDoc.ObjectClassName = ipNetworkClass)
    (hstart : To4 (env.ParseIP rawDoc.StartAddress) ≠ []
      ∨ To16 (env.ParseIP rawDoc.StartAddress) ≠ [])
    (hshape : hasShortAdr rawDoc = false) :
    parseFile env filename =
      Outcome.ok ((env.Summarize (env.ParseIP rawDoc.StartAddress)
        (env.ParseIP rawDoc.EndAddress)).map
          (recordFor env rawDoc (specCountryCodes env rawDoc))) := by
  rw [parseFile_network env filename rawDoc hdec hclass hstart,
    getCountryCodes_eq_spec, hshape]
  simp

/-! ## The claims -/

/-- C1 (code defect). The document `shortAdrNetwork` is decoded, has object
class "ip network", its start address parses and the summarizer gives one
block for its range (192.0.2.0/24); the claim asks for one record, but
`parseFile` returns nothing: `getCountryCodes` reads `vcardInfo[1]` of the
one-element array `["adr"]` and the run stops with a panic. -/
theorem c1_parseFile_panics_on_short_adr :
    (sampleEnv shortAdrNetwork).Decode "net.json" = Except.ok shortAdrNetwork ∧
      shortAdrNetwork.ObjectClassName = ipNetworkClass ∧
      (sampleParseIP shortAdrNetwork.StartAddress).length = 16 ∧
      Summarize (sampleParseIP shortAdrNetwork.StartAddress)
          (sampleParseIP shortAdrNetwork.EndAddress)
        = [{ bits := 32, addr := 3221225984, ones := 24 }] ∧
      parseFile (sampleEnv shortAdrNetwork) "net.json" = Outcome.panic :=
  ⟨rfl, by decide, by decide, by decide, by decide⟩

/-- C2. For every decoded document whose object class is not "ip network",
`parseFile` returns the empty list of records and no error, whatever else
the document holds. -/
theorem c2_other_class_gives_no_records (env : Env) (filename : String)
    (rawDoc : RawDocument)
    (hdec : env.Decode filename = Except.ok rawDoc)
    (hclass : rawDoc.ObjectClassName ≠ ipNetworkClass) :
    parseFile env filename = Outcome.ok [] :=
  parseFile_other_class env filename rawDoc hdec hclass

/-- C2 at the document `otherClassDoc` (class "entity", unparseable
addresses, the array `["adr"]` in its contact data). -/
theorem c2_other_class_gives_no_records_witness :
    (sampleEnv otherClassDoc).Decode "org.json" = Except.ok otherClassDoc ∧
      otherClassDoc.ObjectClassName ≠ ipNetworkClass ∧
      parseFile (sampleEnv otherClassDoc) "org.json" = Outcome.ok [] :=
  ⟨rfl, by decide,
    c2_other_class_gives_no_records (sampleEnv otherClassDoc) "org.json" otherClassDoc rfl
      (by decide)⟩

/-- C3. For two addresses of one family (both IPv4 or both IPv6) with
start ≤ end, the blocks of the Range Summarizer are in ascending address
order, pairwise without a common address, and hold exactly the addresses
from start to end; each block is well formed and of the family's width. -/
theorem c3_summarize_exact_cover (first last : IP)
    (hfam : (isIPv4 first ∧ isIPv4 last) ∨ (isIPv6 first ∧ isIPv6 last))
    (hle : addrValue first ≤ addrValue last) :
    ExactCover (Summarize first last) (addrValue first) (addrValue last) ∧
      ∀ c ∈ Summarize first last,
        c.Aligned ∧ (isIPv4 first → c.bits = 32) ∧ (isIPv6 first → c.bits = 128) := by
  have _ := hle
  rcases hfam with ⟨h1, h2⟩ | ⟨h1, h2⟩
  · rw [Summarize_of_ipv4 first last h1 h2]
    obtain ⟨hp, hc, hw⟩ := summarizeRange_spec 32 (addrValue first) (addrValue last)
    refine ⟨⟨hp, hc⟩, ?_⟩
    intro c hmem
    obtain ⟨hb, ho, ha⟩ := hw c hmem
    exact ⟨⟨ho, ha⟩, fun _ => hb, fun h6 => absurd h6.1 h1⟩
  · rw [Summarize_of_ipv6 first last h1 h2]
    obtain ⟨hp, hc, hw⟩ := summarizeRange_spec 128 (addrValue first) (addrValue last)
    refine ⟨⟨hp, hc⟩, ?_⟩
    intro c hmem
    obtain ⟨hb, ho, ha⟩ := hw c hmem
    exact ⟨⟨ho, ha⟩, fun h4 => absurd h1.1 h4, fun _ => hb⟩

/-- C3 at the range 10.0.0.1 to 10.0.0.6, whose blocks are 10.0.0.1/32,
10.0.0.2/31, 10.0.0.4/31 and 10.0.0.6/32. -/
theorem c3_summarize_exact_cover_witness :
    ((isIPv4 (sampleParseIP "10.0.0.1") ∧ isIPv4 (sampleParseIP "10.0.0.6")) ∨
        (isIPv6 (sampleParseIP "10.0.0.1") ∧ isIPv6 (sampleParseIP "10.0.0.6"))) ∧
      addrValue (sampleParseIP "10.0.0.1") ≤ addrValue (sampleParseIP "10.0.0.6") ∧
      Summarize (sampleParseIP "10.0.0.1") (sampleParseIP "10.0.0.6") =
        [{ bits := 32, addr := 167772161, ones := 32 },
         { bits := 32, addr := 167772162, ones := 31 },
         { bits := 32, addr := 167772164, ones := 31 },
         { bits := 32, addr := 167772166, ones := 32 }] ∧
      ExactCover (Summarize (sampleParseIP "10.0.0.1") (sampleParseIP "10.0.0.6"))
        (addrValue (sampleParseIP "10.0.0.1")) (addrValue (sampleParseIP "10.0.0.6")) :=
  ⟨by decide, by decide, by decide,
    (c3_summarize_exact_cover (sampleParseIP "10.0.0.1") (sampleParseIP "10.0.0.6")
      (by decide) (by decide)).1⟩

/-- C4 (code defect). The document `badEndNetwork` is a decoded IP-network
document whose end address is not parseable (`net.ParseIP` gives nil); the
claim asks for an error, but `parseFile` tests the start address only
(main.go 121-127) and returns the empty record list with no error. -/
theorem c4_unparseable_end_is_accepted :
    (sampleEnv badEndNetwork).Decode "net.json" = Except.ok badEndNetwork ∧
      badEndNetwork.ObjectClassName = ipNetworkClass ∧
      sampleParseIP badEndNetwork.EndAddress = [] ∧
      parseFile (sampleEnv badEndNetwork) "net.json" = Outcome.ok [] :=
  ⟨rfl, by decide, by decide, by decide⟩

/-- C5 as stated fails: `mixedFamilyNetwork` is a decoded IP-network document
whose start address is an IPv4 and whose end address is an IPv6 address,
both parsed, and `parseFile` returns the empty record list and no error. -/
theorem c5_mixed_family_not_an_error :
    (sampleEnv mixedFamilyNetwork).Decode "net.json" = Except.ok mixedFamilyNetwork ∧
      mixedFamilyNetwork.ObjectClassName = ipNetworkClass ∧
      (sampleParseIP mixedFamilyNetwork.StartAddress).length = 16 ∧
      (sampleParseIP mixedFamilyNetwork.EndAddress).length = 16 ∧
      isIPv4 (sampleParseIP mixedFamilyNetwork.StartAddress) ∧
      isIPv6 (sampleParseIP mixedFamilyNetwork.EndAddress) ∧
      parseFile (sampleEnv mixedFamilyNetwork) "net.json" = Outcome.ok [] :=
  ⟨rfl, by decide, by decide, by decide, by decide, by decide, by decide⟩

/-- C5, amended. For every decoded IP-network document whose start and end
addresses are of different address families, `parseFile` returns no error;
the summarizer gives no block for such a pair, and `parseFile` returns the
empty record list whenever `getCountryCodes` returns. -/
theorem c5_mixed_family_returns_empty (env : Env) (filename : String)
    (rawDoc : RawDocument)
    (hdec : env.Decode filename = Except.ok rawDoc)
    (hclass : rawDoc.ObjectClassName = ipNetworkClass)
    (hsum : env.Summarize = Summarize)
    (hfam : (isIPv4 (env.ParseIP rawDoc.StartAddress) ∧
          isIPv6 (env.ParseIP rawDoc.EndAddress)) ∨
        (isIPv6 (env.ParseIP rawDoc.StartAddress) ∧
          isIPv4 (env.ParseIP rawDoc.EndAddress))) :
    (∀ msg, parseFile env filename ≠ Outcome.error msg) ∧
      ((getCountryCodes env rawDoc).isSome → parseFile env filename = Outcome.ok []) := by
  have hstart : To4 (env.ParseIP rawDoc.StartAddress) ≠ []
      ∨ To16 (env.ParseIP rawDoc.StartAddress) ≠ [] := by
    rcases hfam with ⟨h, _⟩ | ⟨⟨_, h⟩, _⟩
    · exact Or.inl h
    · exact Or.inr h
  refine ⟨parseFile_no_error_of_start env filename rawDoc hdec hclass hstart, ?_⟩
  intro hsome
  rw [parseFile_network env filename rawDoc hdec hclass hstart, hsum, Summarize_mixed _ _ hfam]
  cases hc : getCountryCodes env rawDoc with
  | none => rw [hc] at hsome; cases hsome
  | some countryCodes => rfl

/-- C5, amended, at the document `mixedFamilyNetwork`. -/
theorem c5_mixed_family_returns_empty_witness :
    ((sampleEnv mixedFamilyNetwork).Decode "net.json" = Except.ok mixedFamilyNetwork ∧
        mixedFamilyNetwork.ObjectClassName = ipNetworkClass ∧
        (sampleEnv mixedFamilyNetwork).Summarize = Summarize ∧
        (getCountryCodes (sampleEnv mixedFamilyNetwork) mixedFamilyNetwork).isSome) ∧
      (∀ msg, parseFile (sampleEnv mixedFamilyNetwork) "net.json" ≠ Outcome.error msg) ∧
      parseFile (sampleEnv mixedFamilyNetwork) "net.json" = Outcome.ok [] :=
  have h := c5_mixed_family_returns_empty (sampleEnv mixedFamilyNetwork) "net.json"
    mixedFamilyNetwork rfl (by decide) rfl (Or.inl (by decide))
  ⟨⟨rfl, by decide, rfl, by decide⟩, h.1, h.2 (by decide)⟩

/-- C6 (code defect). On a document whose contact data holds the one-element
array `["adr"]`, `getCountryCodes` does not return a list: after the test
`len(vcardInfo) == 0` it reads `vcardInfo[1]`, out of range, and panics,
whatever the country lookup is. -/
theorem c6_getCountryCodes_panics_on_short_adr :
    hasShortAdr shortAdrNetwork = true ∧
      ∀ env : Env, getCountryCodes env shortAdrNetwork = none :=
  ⟨by decide, fun _ => rfl⟩

/-- C7. The `Countries` of every record `parseFile` emits has no duplicate,
holds exactly the codes `getCountryCodes` returned for the document, and
lists them by the position of their first occurrence in that result. -/
theorem c7_countries_dedup_first_seen (env : Env) (filename : String)
    (rawDoc : RawDocument) (recs : List ParsedDocument) (r : ParsedDocument)
    (countryCodes : List String)
    (hdec : env.Decode filename = Except.ok rawDoc)
    (hok : parseFile env filename = Outcome.ok recs) (hr : r ∈ recs)
    (hcodes : getCountryCodes env rawDoc = some countryCodes) :
    r.Countries.Nodup ∧ (∀ c, c ∈ r.Countries ↔ c ∈ countryCodes) ∧
      r.Countries.Pairwise fun a b => countryCodes.indexOf a < countryCodes.indexOf b := by
  obtain ⟨_, _, codes, hc, cidr, _, hrec⟩ :=
    parseFile_ok_mem env filename rawDoc recs r hdec hok hr
  rw [hcodes] at hc
  injection hc with hc
  subst hc
  subst hrec
  exact countryLoop_dedup countryCodes

/-- C7 at the document `multiDoc`, whose contacts give US, CA, US. -/
theorem c7_countries_dedup_first_seen_witness :
    ((sampleEnv multiDoc).Decode "multi.json" = Except.ok multiDoc ∧
        parseFile (sampleEnv multiDoc) "multi.json" = Outcome.ok multiRecords ∧
        multiRecord "10.0.0.2/31" ∈ multiRecords ∧
        getCountryCodes (sampleEnv multiDoc) multiDoc = some ["US", "CA", "US"]) ∧
      (multiRecord "10.0.0.2/31").Countries = ["US", "CA"] ∧
      ((multiRecord "10.0.0.2/31").Countries.Nodup ∧
        (∀ c, c ∈ (multiRecord "10.0.0.2/31").Countries ↔ c ∈ ["US", "CA", "US"]) ∧
        (multiRecord "10.0.0.2/31").Countries.Pairwise fun a b =>
          ["US", "CA", "US"].indexOf a < ["US", "CA", "US"].indexOf b) :=
  ⟨⟨rfl, by decide, by decide, by decide⟩, rfl,
    c7_countries_dedup_first_seen (sampleEnv multiDoc) "multi.json" multiDoc multiRecords
      (multiRecord "10.0.0.2/31") ["US", "CA", "US"] rfl (by decide) (by decide) (by decide)⟩

/-- C8 (code defect, the one of C6). On the document `labelThenShortAdr` the
extractor of the spec gives the code of the well-formed address entry and
skips the one-element array `["adr"]`, while `getCountryCodes` panics on
that array and returns nothing. -/
theorem c8_getCountryCodes_differs_from_spec :
    specCountryCodes (sampleEnv labelThenShortAdr) labelThenShortAdr = ["US"] ∧
      getCountryCodes (sampleEnv labelThenShortAdr) labelThenShortAdr = none := by
  decide

/-- C9. For a decoded IP-network document the `Type` of every emitted record
is fixed by the parsed start address alone: "inetnum" when it has a 4-byte
form, "inet6num" when it has only a 16-byte form; when it has neither,
`parseFile` returns an error. -/
theorem c9_type_by_start_address (env : Env) (filename : String) (rawDoc : RawDocument)
    (hdec : env.Decode filename = Except.ok rawDoc)
    (hclass : rawDoc.ObjectClassName = ipNetworkClass) :
    (To4 (env.ParseIP rawDoc.StartAddress) ≠ [] →
        ∀ recs, parseFile env filename = Outcome.ok recs →
          ∀ r ∈ recs, r.Type_ = "inetnum") ∧
      (To4 (env.ParseIP rawDoc.StartAddress) = [] →
        To16 (env.ParseIP rawDoc.StartAddress) ≠ [] →
        ∀ recs, parseFile env filename = Outcome.ok recs →
          ∀ r ∈ recs, r.Type_ = "inet6num") ∧
      (To4 (env.ParseIP rawDoc.StartAddress) = [] →
        To16 (env.ParseIP rawDoc.StartAddress) = [] →
        parseFile env filename = Outcome.error "Invalid IP version") := by
  refine ⟨?_, ?_, ?_⟩
  · intro h4 recs hok r hr
    obtain ⟨_, _, codes, _, cidr, _, hrec⟩ :=
      parseFile_ok_mem env filename rawDoc recs r hdec hok hr
    subst hrec
    simp [recordFor, netTypeOf, h4, ipv4NetType]
  · intro h4 _ recs hok r hr
    obtain ⟨_, _, codes, _, cidr, _, hrec⟩ :=
      parseFile_ok_mem env filename rawDoc recs r hdec hok hr
    subst hrec
    simp [recordFor, netTypeOf, h4, ipv6NetType]
  · intro h4 h16
    exact parseFile_invalid_start env filename rawDoc hdec hclass h4 h16

/-- C9 at the SILVERSTAR-11 document, an IPv4 network. -/
theorem c9_type_by_start_address_witness :
    ((sampleEnv silverstar).Decode "s.json" = Except.ok silverstar ∧
        silverstar.ObjectClassName = ipNetworkClass ∧
        To4 ((sampleEnv silverstar).ParseIP silverstar.StartAddress) ≠ [] ∧
        parseFile (sampleEnv silverstar) "s.json" = Outcome.ok [silverstarRecord]) ∧
      ∀ r ∈ [silverstarRecord], r.Type_ = "inetnum" :=
  ⟨⟨rfl, by decide, by decide, by decide⟩,
    (c9_type_by_start_address (sampleEnv silverstar) "s.json" silverstar rfl (by decide)).1
      (by decide) [silverstarRecord] (by decide)⟩

/-- C10. The `LastModified` of every emitted record is the date of the last
event, in list order, whose action is "last changed", and the empty string
when there is none; it is a function of the matching events only. -/
theorem c10_last_modified_last_match (env : Env) (filename : String)
    (rawDoc : RawDocument) (recs : List ParsedDocument) (r : ParsedDocument)
    (hdec : env.Decode filename = Except.ok rawDoc)
    (hok : parseFile env filename = Outcome.ok recs) (hr : r ∈ recs) :
    r.LastModified =
      match (rawDoc.Events.filter fun ev => ev.Action = "last changed").getLast? with
      | some ev => ev.Date
      | none => "" := by
  obtain ⟨_, _, codes, _, cidr, _, hrec⟩ :=
    parseFile_ok_mem env filename rawDoc recs r hdec hok hr
  subst hrec
  exact lastModifiedLoop_eq rawDoc.Events ""

/-- C10 at the document `multiDoc`, whose events are "last changed" (2020),
"registration" (2021) and "last changed" (2023). -/
theorem c10_last_modified_last_match_witness :
    ((sampleEnv multiDoc).Decode "multi.json" = Except.ok multiDoc ∧
        parseFile (sampleEnv multiDoc) "multi.json" = Outcome.ok multiRecords ∧
        multiRecord "10.0.0.4/31" ∈ multiRecords) ∧
      (multiRecord "10.0.0.4/31").LastModified = "2023-01-01T00:00:00-05:00" ∧
      (multiRecord "10.0.0.4/31").LastModified =
        match (multiDoc.Events.filter fun ev => ev.Action = "last changed").getLast? with
        | some ev => ev.Date
        | none => "" :=
  ⟨⟨rfl, by decide, by decide⟩, rfl,
    c10_last_modified_last_match (sampleEnv multiDoc) "multi.json" multiDoc multiRecords
      (multiRecord "10.0.0.4/31") rfl (by decide) (by decide)⟩

/-! ## The remarks loop -/

theorem intercalate_go_eq (sep : String) (l : List String) (acc : String) :
    String.intercalate.go acc sep l = acc ++ String.intercalate.go "" sep l := by
  induction l generalizing acc with
  | nil => simp [String.intercalate.go]
  | cons a rest ih =>
    rw [String.intercalate.go, ih, String.intercalate.go, ih ("" ++ sep ++ a)]
    simp [String.append_assoc]

theorem intercalate_cons_cons (sep a b : String) (l : List String) :
    sep.intercalate (a :: b :: l) = a ++ sep ++ sep.intercalate (b :: l) := by
  rw [String.intercalate, String.intercalate, String.intercalate.go, intercalate_go_eq,
    intercalate_go_eq sep l b]
  simp [String.append_assoc]

theorem remarksLoop_eq (rest : List Remark) (n i : Nat) (remarks : String)
    (hn : n = i + rest.length) :
    remarksLoop n i remarks rest =
      remarks ++ Join (rest.map fun remark => Join remark.Description "\n") "\n" := by
  induction rest generalizing i remarks with
  | nil => simp [remarksLoop, Join, String.intercalate]
  | cons remark rest ih =>
    rw [remarksLoop]
    cases rest with
    | nil =>
      have h : ¬ i < n - 1 := by simp at hn; omega
      simp [h, remarksLoop, Join, String.intercalate, String.intercalate.go]
    | cons r2 rest =>
      have h : i < n - 1 := by simp at hn; omega
      simp only [h, if_true]
      rw [ih (i + 1) _ (by simp at hn ⊢; omega)]
      simp only [Join, List.map_cons, intercalate_cons_cons, String.append_assoc]

/-! ## One-address ranges and the parsed form of addresses -/

theorem blockBits_single (a w : Nat) : blockBits a a w = 0 := by
  induction w with
  | zero => rfl
  | succ k ih =>
    rw [blockBits]
    have h2 : 2 ≤ 2 ^ (k + 1) := by
      have : 2 ^ 1 ≤ 2 ^ (k + 1) := Nat.pow_le_pow_right (by decide) (by omega)
      simpa using this
    have h : ¬ (a % 2 ^ (k + 1) = 0 ∧ a + 2 ^ (k + 1) ≤ a + 1) := by
      rintro ⟨_, h⟩
      omega
    rw [if_neg h]
    exact ih

theorem summarizeRange_single (w a : Nat) :
    summarizeRange w a a = [{ bits := w, addr := a, ones := w }] := by
  have h : a + 1 - a = 1 := by omega
  simp [summarizeRange, h, summarizeLoop, blockBits_single]

theorem Summarize_single (a : IP) :
    (isIPv4 a → Summarize a a = [{ bits := 32, addr := addrValue a, ones := 32 }]) ∧
      (isIPv6 a → Summarize a a = [{ bits := 128, addr := addrValue a, ones := 128 }]) := by
  constructor
  · intro h
    rw [Summarize_of_ipv4 a a h h, summarizeRange_single]
  · intro h
    rw [Summarize_of_ipv6 a a h h, summarizeRange_single]

theorem To16_ne_nil_of_length (ip : IP) (h : ip.length = 16) : To16 ip ≠ [] := by
  have h4 : ¬ ip.length = 4 := by omega
  unfold To16
  rw [if_neg h4, if_pos h]
  intro hnil
  rw [hnil] at h
  simp at h

theorem sampleParseIP_length (s : String) :
    sampleParseIP s = [] ∨ (sampleParseIP s).length = 16 := by
  unfold sampleParseIP
  split
  · right; simp [v4InV6Lead]
  · split
    · right; simp
    · left; rfl

/-! ## Invariants of the pipeline -/

/-- A worker other than the one that moves keeps its place. -/
theorem getElem?_set_other (ws : List Worker) (i j : Nat) (w v x : Worker)
    (hi : ws[i]? = some w) (hj : ws[j]? = some v) (hne : v ≠ w) :
    (ws.set j x)[i]? = some w := by
  have hij : j ≠ i := by
    intro h
    subst h
    rw [hi] at hj
    injection hj with hj
    exact hne hj.symm
  rw [List.getElem?_set_ne hij]
  exact hi

theorem step_documents (env : Env) (marshal : ParsedDocument → String) (s s1 : Pipeline)
    (a : Action) (h : step env marshal s a = some s1) :
    (∀ i batch, a = Action.append i → s.workers[i]? = some (Worker.appending batch) →
        s1.documents = s.documents ++ batch) ∧
      ((∀ i, a ≠ Action.append i) → s1.documents = s.documents) := by
  unfold step at h
  split at h
  · cases h
  · cases a with
    | deliver i =>
      simp only at h
      split at h
      · injection h with h; subst h; simp
      · cases h
    | parse i =>
      simp only at h
      split at h
      · split at h <;> (injection h with h; subst h; simp)
      · cases h
    | signal i =>
      simp only at h
      split at h
      · injection h with h; subst h; simp
      · cases h
    | append i =>
      simp only at h
      split at h
      · rename_i batch hb
        injection h with h; subst h
        refine ⟨?_, fun hne => absurd rfl (hne i)⟩
        intro j batch2 hj hw
        injection hj with hj
        subst hj
        rw [hb] at hw
        injection hw with hw
        injection hw with hw
        subst hw
        rfl
      · cases h
    | leave i =>
      simp only at h
      split at h
      · split at h
        · injection h with h; subst h; simp
        · cases h
      · cases h
    | walkEnd =>
      simp only at h
      split at h
      · injection h with h; subst h; simp
      · cases h
    | finish =>
      simp only at h
      split at h
      · injection h with h; subst h; simp
      · cases h

theorem step_aborting (env : Env) (marshal : ParsedDocument → String) (s s1 : Pipeline)
    (a : Action) (i : Nat)
    (hw : ∀ paths, s.walker ≠ Walker.walking paths)
    (hi : s.workers[i]? = some Worker.aborting)
    (h : step env marshal s a = some s1) :
    (∀ paths, s1.walker ≠ Walker.walking paths) ∧ s1.workers[i]? = some Worker.aborting := by
  unfold step at h
  split at h
  · cases h
  · cases a with
    | deliver j =>
      simp only at h
      split at h
      · rename_i hwalk _
        exact absurd hwalk (hw _)
      · cases h
    | parse j =>
      simp only at h
      split at h
      · rename_i filename hj
        split at h <;> injection h with h <;> subst h
        · exact ⟨hw, getElem?_set_other _ i j _ _ _ hi hj (by simp)⟩
        · exact ⟨hw, getElem?_set_other _ i j _ _ _ hi hj (by simp)⟩
        · exact ⟨hw, hi⟩
      · cases h
    | signal j =>
      simp only at h
      split at h
      · rename_i hwalk _
        exact absurd hwalk (hw _)
      · cases h
    | append j =>
      simp only at h
      split at h
      · rename_i batch hj
        injection h with h; subst h
        exact ⟨hw, getElem?_set_other _ i j _ _ _ hi hj (by simp)⟩
      · cases h
    | leave j =>
      simp only at h
      split at h
      · rename_i hj
        split at h
        · injection h with h; subst h
          exact ⟨hw, getElem?_set_other _ i j _ _ _ hi hj (by simp)⟩
        · cases h
      · cases h
    | walkEnd =>
      simp only at h
      split at h
      · rename_i hwalk
        exact absurd hwalk (hw _)
      · cases h
    | finish =>
      simp only at h
      split at h
      · injection h with h; subst h
        exact ⟨by simp, hi⟩
      · cases h

theorem run_aborting (env : Env) (marshal : ParsedDocument → String) (actions : List Action)
    (s s1 : Pipeline) (i : Nat)
    (hw : ∀ paths, s.walker ≠ Walker.walking paths)
    (hi : s.workers[i]? = some Worker.aborting)
    (h : run env marshal s actions = some s1) :
    s1.workers[i]? = some Worker.aborting := by
  induction actions generalizing s with
  | nil =>
    simp only [run] at h
    injection h with h
    subst h
    exact hi
  | cons a rest ih =>
    rw [run] at h
    split at h
    · cases h
    · rename_i s2 hs2
      obtain ⟨hw2, hi2⟩ := step_aborting env marshal s s2 a i hw hi hs2
      exact ih s2 hw2 hi2 h

theorem step_receiving (env : Env) (marshal : ParsedDocument → String) (s s1 : Pipeline)
    (a : Action) (i : Nat)
    (hw : ∀ paths, s.walker ≠ Walker.walking paths)
    (hc : s.filesClosed = false)
    (hi : s.workers[i]? = some Worker.receiving)
    (h : step env marshal s a = some s1) :
    (∀ paths, s1.walker ≠ Walker.walking paths) ∧ s1.filesClosed = false ∧
      s1.workers[i]? = some Worker.receiving := by
  unfold step at h
  split at h
  · cases h
  · cases a with
    | deliver j =>
      simp only at h
      split at h
      · rename_i hwalk _
        exact absurd hwalk (hw _)
      · cases h
    | parse j =>
      simp only at h
      split at h
      · rename_i filename hj
        split at h <;> injection h with h <;> subst h
        · exact ⟨hw, hc, getElem?_set_other _ i j _ _ _ hi hj (by simp)⟩
        · exact ⟨hw, hc, getElem?_set_other _ i j _ _ _ hi hj (by simp)⟩
        · exact ⟨hw, hc, hi⟩
      · cases h
    | signal j =>
      simp only at h
      split at h
      · rename_i hwalk _
        exact absurd hwalk (hw _)
      · cases h
    | append j =>
      simp only at h
      split at h
      · rename_i batch hj
        injection h with h; subst h
        exact ⟨hw, hc, getElem?_set_other _ i j _ _ _ hi hj (by simp)⟩
      · cases h
    | leave j =>
      simp only at h
      split at h
      · split at h
        · rename_i hclosed
          rw [hc] at hclosed
          cases hclosed
        · cases h
      · cases h
    | walkEnd =>
      simp only at h
      split at h
      · rename_i hwalk
        exact absurd hwalk (hw _)
      · cases h
    | finish =>
      simp only at h
      split at h
      · injection h with h; subst h
        exact ⟨by simp, hc, hi⟩
      · cases h

theorem run_receiving (env : Env) (marshal : ParsedDocument → String) (actions : List Action)
    (s s1 : Pipeline) (i : Nat)
    (hw : ∀ paths, s.walker ≠ Walker.walking paths)
    (hc : s.filesClosed = false)
    (hi : s.workers[i]? = some Worker.receiving)
    (h : run env marshal s actions = some s1) :
    s1.workers[i]? = some Worker.receiving := by
  induction actions generalizing s with
  | nil =>
    simp only [run] at h
    injection h with h
    subst h
    exact hi
  | cons a rest ih =>
    rw [run] at h
    split at h
    · cases h
    · rename_i s2 hs2
      obtain ⟨hw2, hc2, hi2⟩ := step_receiving env marshal s s2 a i hw hc hi hs2
      exact ih s2 hw2 hc2 hi2 h

/-- As long as `files` is not closed no worker has left its loop. -/
theorem step_no_exit (env : Env) (marshal : ParsedDocument → String) (s s1 : Pipeline)
    (a : Action)
    (hinv : s.filesClosed = false → ∀ w ∈ s.workers, w ≠ Worker.exited)
    (h : step env marshal s a = some s1) :
    s1.filesClosed = false → ∀ w ∈ s1.workers, w ≠ Worker.exited := by
  unfold step at h
  split at h
  · cases h
  · cases a with
    | deliver j =>
      simp only at h
      split at h
      · injection h with h; subst h
        intro hc w hwm
        rcases List.mem_or_eq_of_mem_set hwm with hm | hm
        · exact hinv hc w hm
        · rw [hm]; simp
      · cases h
    | parse j =>
      simp only at h
      split at h
      · split at h <;> injection h with h <;> subst h
        · intro hc w hwm
          rcases List.mem_or_eq_of_mem_set hwm with hm | hm
          · exact hinv hc w hm
          · rw [hm]; simp
        · intro hc w hwm
          rcases List.mem_or_eq_of_mem_set hwm with hm | hm
          · exact hinv hc w hm
          · rw [hm]; simp
        · exact hinv
      · cases h
    | signal j =>
      simp only at h
      split at h
      · injection h with h; subst h
        intro hc
        cases hc
      · cases h
    | append j =>
      simp only at h
      split at h
      · injection h with h; subst h
        intro hc w hwm
        rcases List.mem_or_eq_of_mem_set hwm with hm | hm
        · exact hinv hc w hm
        · rw [hm]; simp
      · cases h
    | leave j =>
      simp only at h
      split at h
      · split at h
        · rename_i hclosed
          injection h with h; subst h
          intro hc
          simp only at hc
          rw [hc] at hclosed
          cases hclosed
        · cases h
      · cases h
    | walkEnd =>
      simp only at h
      split at h
      · injection h with h; subst h
        exact hinv
      · cases h
    | finish =>
      simp only at h
      split at h
      · injection h with h; subst h
        exact hinv
      · cases h

/-- In a run in which no worker has signalled an abort (`files` is still
open), no worker has left its loop: when the walk ends without an error,
`main` begins the output while every worker is still in its loop. -/
theorem run_no_exit (env : Env) (marshal : ParsedDocument → String) (actions : List Action)
    (poolSize : Nat) (paths : List String) (s1 : Pipeline)
    (h : run env marshal (Pipeline.start poolSize paths) actions = some s1)
    (hc : s1.filesClosed = false) :
    ∀ w ∈ s1.workers, w ≠ Worker.exited := by
  have hgen : ∀ (acts : List Action) (s : Pipeline),
      (s.filesClosed = false → ∀ w ∈ s.workers, w ≠ Worker.exited) →
      run env marshal s acts = some s1 →
      (s1.filesClosed = false → ∀ w ∈ s1.workers, w ≠ Worker.exited) := by
    intro acts
    induction acts with
    | nil =>
      intro s hinv hr
      simp only [run] at hr
      injection hr with hr
      subst hr
      exact hinv
    | cons a rest ih =>
      intro s hinv hr
      rw [run] at hr
      split at hr
      · cases hr
      · rename_i s2 hs2
        exact ih s2 (step_no_exit env marshal s s2 a hinv hs2) hr
  refine hgen actions _ ?_ h hc
  intro _ w hw
  simp only [Pipeline.start, List.mem_replicate] at hw
  rw [hw.2]
  simp

/-! ## Further consequences -/

/-- Every run keeps what the collection holds as a prefix of the later
collection. -/
theorem run_documents_prefix (env : Env) (marshal : ParsedDocument → String)
    (actions : List Action) (s s1 : Pipeline)
    (h : run env marshal s actions = some s1) : s.documents <+: s1.documents := by
  induction actions generalizing s with
  | nil =>
    simp only [run] at h
    injection h with h
    subst h
    exact List.prefix_refl _
  | cons a rest ih =>
    rw [run] at h
    split at h
    · cases h
    · rename_i s2 hs2
      have h2 := ih s2 h
      have hstep : s.documents <+: s2.documents := by
        obtain ⟨happ, hother⟩ := step_documents env marshal s s2 a hs2
        by_cases hcase : ∃ i, a = Action.append i
        · obtain ⟨i, hi⟩ := hcase
          subst hi
          unfold step at hs2
          split at hs2
          · cases hs2
          · simp only at hs2
            split at hs2
            · rename_i batch hb
              rw [happ i batch rfl hb]
              exact List.prefix_append _ _
            · cases hs2
        · rw [hother (fun i hi => hcase ⟨i, hi⟩)]
      exact hstep.trans h2

/-- With the modelled summarizer and no one-element `adr` array in the
contact data, an IP-network document whose start and end address are one
valid address gives exactly one record. -/
theorem parseFile_single_address (env : Env) (filename : String) (rawDoc : RawDocument)
    (hdec : env.Decode filename = Except.ok rawDoc)
    (hclass : rawDoc.ObjectClassName = ipNetworkClass)
    (hsum : env.Summarize = Summarize)
    (hsame : rawDoc.EndAddress = rawDoc.StartAddress)
    (hvalid : isIPv4 (env.ParseIP rawDoc.StartAddress) ∨
      isIPv6 (env.ParseIP rawDoc.StartAddress))
    (hshape : hasShortAdr rawDoc = false) :
    ∃ r, parseFile env filename = Outcome.ok [r] := by
  have hstart : To4 (env.ParseIP rawDoc.StartAddress) ≠ []
      ∨ To16 (env.ParseIP rawDoc.StartAddress) ≠ [] := by
    rcases hvalid with h | ⟨_, h⟩
    · exact Or.inl h
    · exact Or.inr h
  rw [parseFile_records env filename rawDoc hdec hclass hstart hshape, hsum, hsame]
  rcases hvalid with h | h
  · rw [(Summarize_single _).1 h]
    exact ⟨_, rfl⟩
  · rw [(Summarize_single _).2 h]
    exact ⟨_, rfl⟩

/-! ## The claims, continued -/

/-- C11. The `Country` of every emitted record is the first element of its
`Countries` when that list is not empty and the sentinel "ZZ" when it is
empty; unless "ZZ" is itself one of the codes, `Country` is "ZZ" exactly
when the list is empty. -/
theorem c11_country_first_or_sentinel (env : Env) (filename : String)
    (rawDoc : RawDocument) (recs : List ParsedDocument) (r : ParsedDocument)
    (hdec : env.Decode filename = Except.ok rawDoc)
    (hok : parseFile env filename = Outcome.ok recs) (hr : r ∈ recs) :
    (r.Country = match r.Countries with
      | [] => "ZZ"
      | c :: _ => c) ∧
      ("ZZ" ∉ r.Countries → (r.Country = "ZZ" ↔ r.Countries = [])) := by
  obtain ⟨_, _, codes, _, cidr, _, hrec⟩ :=
    parseFile_ok_mem env filename rawDoc recs r hdec hok hr
  subst hrec
  simp only [recordFor]
  cases hcs : countryLoop [] codes with
  | nil => simp [defaultCountryCode]
  | cons c rest =>
    simp only [List.length_cons, List.headD_cons, List.mem_cons, not_or]
    refine ⟨by simp, ?_⟩
    rintro ⟨hne, _⟩
    constructor
    · intro h
      simp at h
      exact absurd h.symm hne
    · intro h
      cases h

/-- C11 at the SILVERSTAR-11 record, whose `Countries` is the one code US. -/
theorem c11_country_first_or_sentinel_witness :
    ((sampleEnv silverstar).Decode "s.json" = Except.ok silverstar ∧
        parseFile (sampleEnv silverstar) "s.json" = Outcome.ok [silverstarRecord] ∧
        silverstarRecord ∈ [silverstarRecord]) ∧
      silverstarRecord.Countries = ["US"] ∧ silverstarRecord.Country = "US" ∧
      (silverstarRecord.Country = match silverstarRecord.Countries with
        | [] => "ZZ"
        | c :: _ => c) :=
  ⟨⟨rfl, by decide, by decide⟩, rfl, rfl,
    (c11_country_first_or_sentinel (sampleEnv silverstar) "s.json" silverstar
      [silverstarRecord] silverstarRecord rfl (by decide) (by decide)).1⟩

/-- C12. The `Remarks` of every emitted record is the texts of the remark
blocks joined by one newline, in source order, the text of a block being its
description lines joined by a newline; titles do not occur, and without
remark blocks it is the empty string. -/
theorem c12_remarks_joined (env : Env) (filename : String)
    (rawDoc : RawDocument) (recs : List ParsedDocument) (r : ParsedDocument)
    (hdec : env.Decode filename = Except.ok rawDoc)
    (hok : parseFile env filename = Outcome.ok recs) (hr : r ∈ recs) :
    r.Remarks = Join (rawDoc.Remarks.map fun remark => Join remark.Description "\n") "\n" ∧
      (rawDoc.Remarks = [] → r.Remarks = "") := by
  obtain ⟨_, _, codes, _, cidr, _, hrec⟩ :=
    parseFile_ok_mem env filename rawDoc recs r hdec hok hr
  subst hrec
  have h := remarksLoop_eq rawDoc.Remarks rawDoc.Remarks.length 0 "" (by simp)
  simp only [recordFor]
  rw [h]
  refine ⟨by simp, ?_⟩
  intro hnil
  rw [hnil]
  rfl

/-- C12 at the document `remarksDoc`: blocks of two lines and of one line. -/
theorem c12_remarks_joined_witness :
    ((sampleEnv remarksDoc).Decode "r.json" = Except.ok remarksDoc ∧
        parseFile (sampleEnv remarksDoc) "r.json" = Outcome.ok [remarksRecord] ∧
        remarksRecord ∈ [remarksRecord]) ∧
      remarksRecord.Remarks = "line one\nline two\nline three" ∧
      remarksRecord.Remarks =
        Join (remarksDoc.Remarks.map fun remark => Join remark.Description "\n") "\n" :=
  ⟨⟨rfl, by decide, by decide⟩, rfl,
    (c12_remarks_joined (sampleEnv remarksDoc) "r.json" remarksDoc [remarksRecord]
      remarksRecord rfl (by decide) (by decide)).1⟩

/-- C13. The `ASN` of every emitted record is the first entry of the
document's origin-AS list when the list is not empty, and 0 when it is
empty; later entries play no part. -/
theorem c13_asn_first_or_zero (env : Env) (filename : String)
    (rawDoc : RawDocument) (recs : List ParsedDocument) (r : ParsedDocument)
    (hdec : env.Decode filename = Except.ok rawDoc)
    (hok : parseFile env filename = Outcome.ok recs) (hr : r ∈ recs) :
    r.ASN = match rawDoc.ArinOriginas0Originautnums with
      | [] => 0
      | asn :: _ => asn := by
  obtain ⟨_, _, codes, _, cidr, _, hrec⟩ :=
    parseFile_ok_mem env filename rawDoc recs r hdec hok hr
  subst hrec
  simp only [recordFor]
  cases rawDoc.ArinOriginas0Originautnums <;> simp

/-- C13 at the document `remarksDoc`, whose origin-AS list is 64500, 64501. -/
theorem c13_asn_first_or_zero_witness :
    ((sampleEnv remarksDoc).Decode "r.json" = Except.ok remarksDoc ∧
        parseFile (sampleEnv remarksDoc) "r.json" = Outcome.ok [remarksRecord] ∧
        remarksRecord ∈ [remarksRecord]) ∧
      remarksRecord.ASN = 64500 ∧
      (remarksRecord.ASN = match remarksDoc.ArinOriginas0Originautnums with
        | [] => 0
        | asn :: _ => asn) :=
  ⟨⟨rfl, by decide, by decide⟩, rfl,
    c13_asn_first_or_zero (sampleEnv remarksDoc) "r.json" remarksDoc [remarksRecord]
      remarksRecord rfl (by decide) (by decide)⟩

/-- C14 (code defect, the one of C6). The document `singleShortAdr` is an
IP-network document whose start and end are the one address 192.0.2.1; the
summarizer gives the single block 192.0.2.1/32, as the claim says, but
`parseFile` emits no record: it panics on the array `["adr"]` of the
contact data. -/
theorem c14_single_address_panics :
    (sampleEnv singleShortAdr).Decode "host.json" = Except.ok singleShortAdr ∧
      singleShortAdr.ObjectClassName = ipNetworkClass ∧
      singleShortAdr.EndAddress = singleShortAdr.StartAddress ∧
      isIPv4 (sampleParseIP singleShortAdr.StartAddress) ∧
      Summarize (sampleParseIP singleShortAdr.StartAddress)
          (sampleParseIP singleShortAdr.EndAddress)
        = [{ bits := 32, addr := 3221225985, ones := 32 }] ∧
      parseFile (sampleEnv singleShortAdr) "host.json" = Outcome.panic :=
  ⟨rfl, by decide, by decide, by decide, by decide, by decide⟩

/-- The errors `parseFile` returns: for a decoded document it returns an error
only when the object class is "ip network" and the start address is
unparseable, and a document whose two addresses parse is never answered
with a returned error. This says nothing of a panic. `net.ParseIP` gives nil
or a 16-byte address. -/
theorem parseFile_error_only_on_bad_address (env : Env)
    (hparse : ∀ text, env.ParseIP text = [] ∨ (env.ParseIP text).length = 16)
    (filename : String) (rawDoc : RawDocument)
    (hdec : env.Decode filename = Except.ok rawDoc) :
    (∀ msg, parseFile env filename = Outcome.error msg →
        rawDoc.ObjectClassName = ipNetworkClass ∧
          (env.ParseIP rawDoc.StartAddress = [] ∨ env.ParseIP rawDoc.EndAddress = [])) ∧
      (env.ParseIP rawDoc.StartAddress ≠ [] → env.ParseIP rawDoc.EndAddress ≠ [] →
        ∀ msg, parseFile env filename ≠ Outcome.error msg) := by
  have key : ∀ msg, parseFile env filename = Outcome.error msg →
      rawDoc.ObjectClassName = ipNetworkClass ∧ env.ParseIP rawDoc.StartAddress = [] := by
    intro msg herr
    by_cases hclass : rawDoc.ObjectClassName = ipNetworkClass
    · refine ⟨hclass, ?_⟩
      rcases hparse rawDoc.StartAddress with h | h
      · exact h
      · exact absurd herr (parseFile_no_error_of_start env filename rawDoc hdec hclass
          (Or.inr (To16_ne_nil_of_length _ h)) msg)
    · rw [parseFile_other_class env filename rawDoc hdec hclass] at herr
      cases herr
  refine ⟨fun msg herr => ⟨(key msg herr).1, Or.inl (key msg herr).2⟩, ?_⟩
  intro hs _ msg herr
  exact hs (key msg herr).2

/-- The returned error of the document `badStartNetwork`, "Invalid IP
version", comes with an unparseable start address. -/
theorem parseFile_error_only_on_bad_address_example :
    ((∀ text, (sampleEnv badStartNetwork).ParseIP text = [] ∨
          ((sampleEnv badStartNetwork).ParseIP text).length = 16) ∧
        (sampleEnv badStartNetwork).Decode "bad.json" = Except.ok badStartNetwork ∧
        parseFile (sampleEnv badStartNetwork) "bad.json" =
          Outcome.error "Invalid IP version") ∧
      badStartNetwork.ObjectClassName = ipNetworkClass ∧
      ((sampleEnv badStartNetwork).ParseIP badStartNetwork.StartAddress = [] ∨
        (sampleEnv badStartNetwork).ParseIP badStartNetwork.EndAddress = []) :=
  ⟨⟨sampleParseIP_length, rfl, by decide⟩,
    (parseFile_error_only_on_bad_address (sampleEnv badStartNetwork) sampleParseIP_length
      "bad.json" badStartNetwork rfl).1 "Invalid IP version" (by decide)⟩

/-- C15 (code defect, the one of C6). The document `shortAdrNetwork` is
decoded, has object class "ip network" and two addresses that parse, so the
claim asks that the transformer does not fail on it whatever its entity list
holds; but `parseFile` fails without returning: `getCountryCodes` reads
`vcardInfo[1]` of the one-element array `["adr"]` and the run stops with a
panic. The transformer fails on contact data, not only on bad addresses. -/
theorem c15_parseable_addresses_still_fail :
    (sampleEnv shortAdrNetwork).Decode "net.json" = Except.ok shortAdrNetwork ∧
      shortAdrNetwork.ObjectClassName = ipNetworkClass ∧
      sampleParseIP shortAdrNetwork.StartAddress ≠ [] ∧
      sampleParseIP shortAdrNetwork.EndAddress ≠ [] ∧
      (sampleParseIP shortAdrNetwork.StartAddress).length = 16 ∧
      (sampleParseIP shortAdrNetwork.EndAddress).length = 16 ∧
      hasShortAdr shortAdrNetwork = true ∧
      parseFile (sampleEnv shortAdrNetwork) "net.json" = Outcome.panic ∧
      ¬ ∃ recs, parseFile (sampleEnv shortAdrNetwork) "net.json" = Outcome.ok recs :=
  have hpanic : parseFile (sampleEnv shortAdrNetwork) "net.json" = Outcome.panic := by decide
  ⟨rfl, by decide, by decide, by decide, by decide, by decide, by decide, hpanic,
    fun ⟨recs, h⟩ => by rw [hpanic] at h; cases h⟩

/-- C16 (code defect). With one worker and one file, the walker hands the
path to the worker, the walk ends, and `main` takes the `finished` signal
of the walker (main.go 286, 289) and begins the output over the empty
collection while the worker still holds its path; the record the worker
appends afterwards is not in the output. `main` waits for the walker only,
never for the workers. -/
theorem c16_output_begins_while_worker_runs :
    run (sampleEnv silverstar) sampleMarshal (Pipeline.start 1 ["a.json"])
        [Action.deliver 0, Action.walkEnd, Action.finish] = some earlyOutput ∧
      earlyOutput.main = Main.printing [] ∧
      earlyOutput.workers = [Worker.parsing "a.json"] ∧
      run (sampleEnv silverstar) sampleMarshal earlyOutput
        [Action.parse 0, Action.append 0] = some lateAppend ∧
      lateAppend.documents = [sampleMarshal silverstarRecord] ∧
      lateAppend.main = Main.printing [] :=
  ⟨by decide, rfl, rfl, by decide, by decide, rfl⟩

/-- C17 (code defect). Three runs in which a participant is blocked for
good. A worker that fails on the last file, after the walk has ended, stays
at its abort signal in every continuation; of two workers that fail at the
same time, the second stays at its abort signal once the walker has taken
the first signal; and after a walk that ends without error, `files` is not
closed and a waiting worker stays waiting. -/
theorem c17_participants_blocked_for_good :
    (run (sampleEnv badStartNetwork) sampleMarshal (Pipeline.start 1 ["bad.json"])
          [Action.deliver 0, Action.walkEnd, Action.parse 0] = some stuckLast ∧
        ∀ actions s1, run (sampleEnv badStartNetwork) sampleMarshal stuckLast actions = some s1 →
          s1.workers[0]? = some Worker.aborting) ∧
      (run (sampleEnv badStartNetwork) sampleMarshal
          (Pipeline.start 2 ["a.json", "b.json", "c.json"])
          [Action.deliver 0, Action.deliver 1, Action.parse 0, Action.parse 1,
            Action.signal 0] = some stuckSecond ∧
        ∀ actions s1,
          run (sampleEnv badStartNetwork) sampleMarshal stuckSecond actions = some s1 →
            s1.workers[1]? = some Worker.aborting) ∧
      (run (sampleEnv silverstar) sampleMarshal (Pipeline.start 1 [])
          [Action.walkEnd, Action.finish] = some idleForever ∧
        ∀ actions s1, run (sampleEnv silverstar) sampleMarshal idleForever actions = some s1 →
          s1.workers[0]? = some Worker.receiving) :=
  ⟨⟨by decide, fun actions s1 h =>
      run_aborting _ _ actions stuckLast s1 0 (by simp [stuckLast]) rfl h⟩,
    ⟨by decide, fun actions s1 h =>
      run_aborting _ _ actions stuckSecond s1 1 (by simp [stuckSecond]) rfl h⟩,
    ⟨by decide, fun actions s1 h =>
      run_receiving _ _ actions idleForever s1 0 (by simp [idleForever]) rfl rfl h⟩⟩

/-- C18. One worker's pass over a file only appends to the shared
collection: after a successful `parseFile` the collection is its earlier
content followed by the serialised records of the file, in `parseFile`'s
order; after a failed one it is unchanged; and no run loses or reorders
what was appended before. -/
theorem c18_worker_pass_only_appends (env : Env) (marshal : ParsedDocument → String)
    (s : Pipeline) (i : Nat) (filename : String)
    (hlive : s.crashed = false)
    (hi : s.workers[i]? = some (Worker.parsing filename)) :
    WorkerFrame env marshal s i filename := by
  have hlt : i < s.workers.length := by
    by_contra hge
    rw [List.getElem?_eq_none (by omega)] at hi
    cases hi
  refine ⟨?_, ?_, ?_⟩
  · intro rawDocs hok
    refine ⟨Pipeline.mk ((s.workers.set i (Worker.appending (rawDocs.map marshal))).set i
        Worker.receiving) s.walker s.main s.filesClosed
        (s.documents ++ rawDocs.map marshal) s.crashed, ?_, rfl⟩
    simp [run, step, hlive, hi, hok, hlt]
  · intro msg herr
    have hparse : step env marshal s (Action.parse i) =
        some (Pipeline.mk (s.workers.set i Worker.aborting) s.walker s.main s.filesClosed
          s.documents s.crashed) := by
      simp [step, hlive, hi, herr]
    refine ⟨⟨_, hparse, ?_, rfl⟩, ?_⟩
    · simp [hlt]
    · intro path rest hwalk
      refine ⟨Pipeline.mk (((s.workers.set i Worker.aborting).set i
          (Worker.appending [])).set i Worker.receiving) Walker.finishing s.main true
          s.documents s.crashed, ?_, rfl⟩
      simp only [run, hparse]
      simp [step, hlive, hlt, hwalk]
  · intro actions s1 h
    exact run_documents_prefix env marshal actions s s1 h

/-- C18 at the state `busyState`, whose worker holds the path of the
SILVERSTAR-11 document and whose collection already holds one record. -/
theorem c18_worker_pass_only_appends_witness :
    (busyState.crashed = false ∧ busyState.workers[0]? = some (Worker.parsing "a.json") ∧
        parseFile (sampleEnv silverstar) "a.json" = Outcome.ok [silverstarRecord]) ∧
      run (sampleEnv silverstar) sampleMarshal busyState [Action.parse 0, Action.append 0] =
        some { busyState with
          workers := [Worker.receiving],
          documents := ["EARLIER 198.51.100.0/24", "SILVERSTAR-11 217.147.184.0/21"] } ∧
      WorkerFrame (sampleEnv silverstar) sampleMarshal busyState 0 "a.json" :=
  ⟨⟨rfl, rfl, by decide⟩, by decide,
    c18_worker_pass_only_appends (sampleEnv silverstar) sampleMarshal busyState 0 "a.json"
      rfl rfl⟩

end ParseArin
